import Mathlib

/-!
# Verification of the SimpleBlockchain-rs core (`src/core.rs`)

This file gives a shallow embedding, in Lean 4, of the validation-and-storage
engine of a minimal proof-of-work blockchain node, and proves (or refutes)
the specification claims about it.

Modelling conventions:
* machine integers (`u8`, `u16`, `u64`) become `Nat`, with an explicit
  `% 2 ^ w` at the places where the Rust source can overflow;
* a byte string becomes `List Nat` (each entry intended `< 256`);
* the SQLite store becomes an explicit `Store` record of row lists, and each
  SQL statement becomes a pure function on it; constraint violations become
  `Except` errors, `ON CONFLICT IGNORE` becomes an explicit no-op branch;
* the black-box cryptography (SHA-256, ECDSA, bincode encodings) is
  a parameter record `Crypto`, since the source treats it as an opaque
  dependency; every theorem is universally quantified over it, and concrete
  witnesses instantiate it with simple executable stand-ins;
* a `rusqlite` transaction that is dropped without `commit()` rolls back:
  an operation wrapped in a transaction returns the *original* store
  whenever its body fails, and the body's final store only on commit.
-/

set_option maxRecDepth 8000

namespace SimpleBlockchain

/-- A byte string (each entry is intended to be `< 256`). -/
abbrev Bytes := List Nat

/-- A (nominally 32-byte) digest, `struct Hash([u8; 32])` in the source. -/
abbrev Hash := List Nat

/-- `MINIMUM_DIFFICULTY_LEVEL: u8 = 12`. -/
def MINIMUM_DIFFICULTY_LEVEL : Nat := 12

/-- `Amount::COIN = 1_0000_0000`. -/
def COIN : Nat := 100000000

/-- `Amount::BLOCK_REWARD = 10 * COIN`. -/
def BLOCK_REWARD : Nat := 10 * COIN

/-- `Amount::MAX_MONEY = 100_000_000_000 * COIN`. -/
def MAX_MONEY : Nat := 100000000000 * COIN

/-- `struct TransactionInput { transaction_hash: Hash, output_index: u16 }`. -/
structure TransactionInput where
  transaction_hash : Hash
  output_index : Nat
deriving DecidableEq, Repr

/-- `struct TransactionOutput { amount: Amount, recipient_hash: Hash }`. -/
structure TransactionOutput where
  amount : Nat
  recipient_hash : Hash
deriving DecidableEq, Repr

/-- `struct Transaction` from the source (the derived `transaction_hash`
field is stored explicitly, as in the Rust struct). -/
structure Transaction where
  payer : Bytes
  inputs : List TransactionInput
  outputs : List TransactionOutput
  signature : Bytes
  transaction_hash : Hash
deriving DecidableEq, Repr

/-- `struct Block { nonce: u64, transactions, parent_hash: Option<Hash>, block_hash }`. -/
structure Block where
  nonce : Nat
  transactions : List Transaction
  parent_hash : Option Hash
  block_hash : Hash
deriving DecidableEq, Repr

/-! ## `Hash::has_difficulty`

The Rust source iterates over the 32 bytes of the hash, consuming 8 bits of
difficulty per zero byte, and falls off the loop into `unreachable!()` only
if the bytes run out with `difficulty ≥ 8` still remaining.  We model the
loop body as a recursion over the byte list, with the `unreachable!()`
fall-through represented by `Option.none`. -/

/-- `u8::leading_zeros` for a byte value: the number of leading zero bits
among the 8 bits of the byte (most significant first). -/
def leadingZeros8 (b : Nat) : Nat :=
  ((List.range 8).takeWhile (fun i => b / 2 ^ (7 - i) % 2 == 0)).length

/-- The loop of `Hash::has_difficulty`, byte by byte; `none` is the
`unreachable!()` fall-through. -/
def hasDifficultyGo : List Nat → Nat → Option Bool
  | [], _ => none
  | b :: rest, d =>
    if d = 0 then some true
    else if d < 8 then some (decide (leadingZeros8 b ≥ d))
    else if b ≠ 0 then some false
    else hasDifficultyGo rest (d - 8)

/-- `Hash::has_difficulty`.  On the real domain (32-byte hashes, `u8`
difficulty) the `unreachable!()` branch is never taken, so the `getD`
default is irrelevant there (proved below). -/
def hasDifficulty (h : Hash) (d : Nat) : Bool :=
  (hasDifficultyGo h d).getD false

/-- Bit `i` of a byte string, big-endian byte order, most significant bit
first inside each byte.  This is the specification-side reading of
"the first `d` leading bits of `h`". -/
def bitAt : List Nat → Nat → Nat
  | [], _ => 0
  | b :: rest, i => if i < 8 then b / 2 ^ (7 - i) % 2 else bitAt rest (i - 8)


/-! ## The cryptographic dependency

The source treats SHA-256, ECDSA over secp256k1 and the bincode binary
encoding as a black box.  We abstract them into a record of functions over
which every theorem is universally quantified. -/

/-- The opaque cryptographic and encoding dependency of `core.rs`:
`Hash::sha256`, `Block::to_hash_challenge`'s bincode encoding of
`(nonce, transactions, parent_hash)`, `Transaction::to_signature_data`'s
bincode encoding of `(payer, inputs, outputs)`, and
`Transaction::verify_signature`. -/
structure Crypto where
  sha256 : Bytes → Hash
  encodeChallenge : Nat → List Transaction → Option Hash → Bytes
  encodeSigData : Bytes → List TransactionInput → List TransactionOutput → Bytes
  verifySig : Transaction → Bool

/-- `Block::to_hash_challenge`. -/
def toHashChallenge (c : Crypto) (b : Block) : Bytes :=
  c.encodeChallenge b.nonce b.transactions b.parent_hash

/-- `Block::solve_hash_challenge`.  The Rust loop serializes the challenge
once and then patches the first 8 bytes with the incremented nonce; its own
`debug_assert_eq!` states that this equals re-encoding the whole block, so
we model each iteration as hashing the re-encoded challenge.  `tries` is the
resolved `max_tries.unwrap_or(1 << 63)` loop bound. -/
def solveHashChallenge (c : Crypto) (difficulty : Nat) : Nat → Block → Bool × Block
  | 0, b => (false, b)
  | tries + 1, b =>
    let thisHash := c.sha256 (toHashChallenge c b)
    if hasDifficulty thisHash difficulty then (true, { b with block_hash := thisHash })
    else solveHashChallenge c difficulty tries { b with nonce := (b.nonce + 1) % 2 ^ 63 }

/-- `Block::verify_hash_challenge`. -/
def verifyHashChallenge (c : Crypto) (b : Block) (difficulty : Nat) : Bool :=
  hasDifficulty b.block_hash difficulty &&
    decide (b.block_hash = c.sha256 (toHashChallenge c b))

/-- A trivial executable instantiation of the cryptographic black box, used
by concrete witnesses: the digest of a byte string is 31 zero bytes followed
by its length mod 256, every signature verifies, and the two encodings are
simple injections. -/
def trivCrypto : Crypto where
  sha256 := fun b => List.replicate 31 0 ++ [b.length % 256]
  encodeChallenge := fun _ _ _ => []
  encodeSigData := fun p i o => List.replicate (p.length + i.length + o.length) 0
  verifySig := fun _ => true


/-! ## The relational store

`BlockchainStorage` persists its state in SQLite.  We embed each base table
as a list of rows (list order = SQLite rowid order, which is insertion
order here), and each SQL statement as a pure function.  `discovered_at`
timestamps are modelled by a monotone `clock` counter: each actually
inserted row gets a fresh, strictly larger timestamp, which matches the
strictly increasing wall-clock defaults of the source. -/

/-- A row of the `blocks` table. -/
structure BlockRow where
  block_hash : Hash
  parent_hash : Option Hash
  block_height : Nat
  nonce : Nat
  discovered_at : Nat
deriving DecidableEq, Repr

/-- A row of the `transactions` table. -/
structure TxRow where
  transaction_hash : Hash
  payer : Bytes
  payer_hash : Hash
  discovered_at : Nat
  signature : Bytes
deriving DecidableEq, Repr

/-- A row of the `transaction_in_block` table. -/
structure TIBRow where
  transaction_hash : Hash
  block_hash : Hash
  transaction_index : Nat
deriving DecidableEq, Repr

/-- A row of the `transaction_outputs` table. -/
structure OutRow where
  out_transaction_hash : Hash
  out_transaction_index : Nat
  amount : Nat
  recipient_hash : Hash
deriving DecidableEq, Repr

/-- A row of the `transaction_inputs` table. -/
structure InRow where
  in_transaction_hash : Hash
  in_transaction_index : Nat
  out_transaction_hash : Hash
  out_transaction_index : Nat
deriving DecidableEq, Repr

/-- The SQLite database underlying a `BlockchainStorage`: the base tables of
the schema in `open_conn`, plus the timestamp counter. -/
structure Store where
  blocks : List BlockRow
  transactions : List TxRow
  transaction_in_block : List TIBRow
  transaction_outputs : List OutRow
  transaction_inputs : List InRow
  trustworthy_wallets : List Hash
  orphaned_transactions : List (Hash × Bytes)
  orphaned_missing_deps : List (Hash × Hash)
  clock : Nat
deriving DecidableEq, Repr

/-- The fresh store created by `open_conn` on an empty database. -/
def emptyStore : Store := ⟨[], [], [], [], [], [], [], [], 0⟩

/-- The reserved 4-byte sentinel block hash `x'deadface'`. -/
def DEADFACE : Hash := [222, 173, 250, 206]

/-- The error taxonomy of `BlockchainError`, plus `sqlError` for raw
SQLite errors that the source propagates unmapped (via `?` on `execute!` or
`query_row!`), and `panicked` for a Rust `assert!`/`unreachable!` abort.
The `&'static str` payloads are constraint or check names. -/
inductive BErr where
  | invalidTxn (msg : String)
  | invalidReceivedBlock (msg : String)
  | invalidTentativeTxn (m : List (Hash × String))
  | insufficientBalance (requested available : Nat)
  | sqlError
  | panicked
deriving DecidableEq, Repr

/-! ### Single-statement primitives

Each returns either a constraint-violation name, or the updated store and
the statement's changed-row count.  `ON CONFLICT IGNORE` clauses of the
schema become explicit `(s, 0)` branches. -/

/-- The nullable foreign-key test of `blocks.parent_hash`. -/
def parentFkOk (blocks : List BlockRow) : Option Hash → Bool
  | none => true
  | some p => blocks.any fun r => decide (r.block_hash = p)

/-- The height computed by the `set_block_height` trigger:
`ifnull((SELECT 1 + block_height FROM blocks WHERE block_hash = parent), 0)`,
evaluated on the table that already contains the new row. -/
def triggerHeight (blocks : List BlockRow) : Option Hash → Nat
  | none => 0
  | some p =>
    match blocks.find? (fun r => decide (r.block_hash = p)) with
    | some pr => 1 + pr.block_height
    | none => 0

/-- `INSERT INTO blocks (block_hash, parent_hash, nonce) VALUES (?,?,?)`,
including the CHECK constraints, `ON CONFLICT IGNORE` on the primary key,
the `parent_hash` foreign key (checked against the table including the row
just inserted, as SQLite does), and the `set_block_height` trigger.  The
`nonce < 2 ^ 63` condition is `CHECK (nonce >= 0)` read back through the
`u64 → i64` cast of the `ToSql` impl. -/
def execInsertBlock (s : Store) (bh : Hash) (ph : Option Hash) (nonce : Nat) :
    Except String (Store × Nat) :=
  if ¬ (bh.length = 32 ∨ bh = DEADFACE) then .error "blocks hash length check"
  else if 2 ^ 63 ≤ nonce then .error "blocks nonce check"
  else if s.blocks.any (fun r => decide (r.block_hash = bh)) then .ok (s, 0)
  else
    let blocks' := s.blocks ++ [⟨bh, ph, 0, nonce, s.clock⟩]
    if parentFkOk blocks' ph then
      let newHeight := triggerHeight blocks' ph
      let blocks'' := blocks'.map
        (fun r => if r.block_hash = bh then { r with block_height := newHeight } else r)
      .ok ({ s with blocks := blocks'', clock := s.clock + 1 }, 1)
    else .error "blocks parent foreign key"

/-- `INSERT INTO transactions (transaction_hash, payer, payer_hash, signature)
VALUES (?,?,?,?)` with its CHECKs and `ON CONFLICT IGNORE` primary key. -/
def execInsertTransaction (s : Store) (th : Hash) (payer : Bytes) (payerHash : Hash)
    (sig : Bytes) : Except String (Store × Nat) :=
  if ¬ th.length = 32 then .error "transactions hash length check"
  else if ¬ payer.length = 88 then .error "transactions payer length check"
  else if ¬ payerHash.length = 32 then .error "transactions payer hash length check"
  else if s.transactions.any (fun r => decide (r.transaction_hash = th)) then .ok (s, 0)
  else
    .ok ({ s with
            transactions := s.transactions ++ [⟨th, payer, payerHash, s.clock, sig⟩],
            clock := s.clock + 1 }, 1)

/-- `INSERT INTO transaction_outputs VALUES (?,?,?,?)`: CHECKs, the
`ON CONFLICT IGNORE` primary key `(hash, index)`, the plain (aborting)
`UNIQUE (hash, recipient_hash)`, and the foreign key into `transactions`.
`amount < 2 ^ 63` is `CHECK (amount > 0)` through the `u64 → i64` cast. -/
def execInsertOutput (s : Store) (th : Hash) (idx amount : Nat) (recipient : Hash) :
    Except String (Store × Nat) :=
  if ¬ (0 < amount ∧ amount < 2 ^ 63) then .error "outputs amount check"
  else if ¬ idx ≤ 255 then .error "outputs index check"
  else if ¬ recipient.length = 32 then .error "outputs recipient length check"
  else if s.transaction_outputs.any
      (fun r => decide (r.out_transaction_hash = th ∧ r.out_transaction_index = idx)) then
    .ok (s, 0)
  else if s.transaction_outputs.any
      (fun r => decide (r.out_transaction_hash = th ∧ r.recipient_hash = recipient)) then
    .error "outputs recipient unique"
  else if ¬ s.transactions.any (fun r => decide (r.transaction_hash = th)) then
    .error "outputs transaction foreign key"
  else .ok ({ s with transaction_outputs := s.transaction_outputs ++ [⟨th, idx, amount, recipient⟩] }, 1)

/-- `INSERT INTO transaction_inputs VALUES (?,?,?,?)`: CHECK on the input
index, `ON CONFLICT IGNORE` primary key `(in_hash, in_index)`, foreign keys
into `transactions` and `transaction_outputs`. -/
def execInsertInput (s : Store) (inTh : Hash) (inIdx : Nat) (outTh : Hash) (outIdx : Nat) :
    Except String (Store × Nat) :=
  if ¬ inIdx ≤ 255 then .error "inputs index check"
  else if s.transaction_inputs.any
      (fun r => decide (r.in_transaction_hash = inTh ∧ r.in_transaction_index = inIdx)) then
    .ok (s, 0)
  else if ¬ s.transactions.any (fun r => decide (r.transaction_hash = inTh)) then
    .error "inputs transaction foreign key"
  else if ¬ s.transaction_outputs.any
      (fun r => decide (r.out_transaction_hash = outTh ∧ r.out_transaction_index = outIdx)) then
    .error "inputs output foreign key"
  else .ok ({ s with transaction_inputs := s.transaction_inputs ++ [⟨inTh, inIdx, outTh, outIdx⟩] }, 1)

/-- `INSERT INTO transaction_in_block VALUES (?,?,?)`: CHECK on the index,
foreign keys, and two plain (aborting, *not* ignoring) UNIQUE constraints. -/
def execInsertTIB (s : Store) (th bh : Hash) (idx : Nat) : Except String (Store × Nat) :=
  if ¬ idx ≤ 1999 then .error "tib index check"
  else if ¬ s.transactions.any (fun r => decide (r.transaction_hash = th)) then
    .error "tib transaction foreign key"
  else if ¬ s.blocks.any (fun r => decide (r.block_hash = bh)) then
    .error "tib block foreign key"
  else if s.transaction_in_block.any
      (fun r => decide (r.transaction_hash = th ∧ r.block_hash = bh)) then
    .error "tib transaction block unique"
  else if s.transaction_in_block.any
      (fun r => decide (r.block_hash = bh ∧ r.transaction_index = idx)) then
    .error "tib block index unique"
  else .ok ({ s with transaction_in_block := s.transaction_in_block ++ [⟨th, bh, idx⟩] }, 1)

/-- `INSERT INTO trustworthy_wallets VALUES (?)` (`ON CONFLICT IGNORE`). -/
def execInsertTrustworthy (s : Store) (h : Hash) : Except String (Store × Nat) :=
  if ¬ h.length = 32 then .error "trustworthy length check"
  else if s.trustworthy_wallets.any (fun r => decide (r = h)) then .ok (s, 0)
  else .ok ({ s with trustworthy_wallets := s.trustworthy_wallets ++ [h] }, 1)

/-! ### Derived views -/

/-- The `unauthorized_spending` view restricted to one transaction hash:
does some input of this transaction reference an output whose
`recipient_hash` differs from the transaction's `payer_hash`? -/
def unauthorizedSpendingHas (s : Store) (th : Hash) : Bool :=
  s.transactions.any fun t =>
    decide (t.transaction_hash = th) &&
    (s.transaction_inputs.any fun i =>
      decide (i.in_transaction_hash = t.transaction_hash) &&
      (s.transaction_outputs.any fun o =>
        decide (o.out_transaction_hash = i.out_transaction_hash ∧
                o.out_transaction_index = i.out_transaction_index ∧
                t.payer_hash ≠ o.recipient_hash)))

/-- `transaction_credits`: the summed amounts of the outputs referenced by
the inputs of `th` (join multiplicity preserved). -/
def creditedAmount (s : Store) (th : Hash) : Nat :=
  ((s.transaction_inputs.filter fun i => decide (i.in_transaction_hash = th)).map fun i =>
    ((s.transaction_outputs.filter fun o =>
      decide (o.out_transaction_hash = i.out_transaction_hash ∧
              o.out_transaction_index = i.out_transaction_index)).map (·.amount)).sum).sum

/-- Whether `th` appears in the `transaction_credits` CTE at all (it needs
at least one input joined to an existing output). -/
def hasCreditRow (s : Store) (th : Hash) : Bool :=
  s.transaction_inputs.any fun i =>
    decide (i.in_transaction_hash = th) &&
    (s.transaction_outputs.any fun o =>
      decide (o.out_transaction_hash = i.out_transaction_hash ∧
              o.out_transaction_index = i.out_transaction_index))

/-- `transaction_debits`: the summed amounts of the outputs of `th`. -/
def debitedAmount (s : Store) (th : Hash) : Nat :=
  ((s.transaction_outputs.filter fun o => decide (o.out_transaction_hash = th)).map
    (·.amount)).sum

/-- Whether `th` appears in the `transaction_debits` CTE (has an output). -/
def hasDebitRow (s : Store) (th : Hash) : Bool :=
  s.transaction_outputs.any fun o => decide (o.out_transaction_hash = th)

/-- A row of `transaction_credit_debit` exists for `th` with
`debited_amount > credited_amount` (the view inner-joins credits, debits
and the `transactions` row). -/
def creditDebitViolation (s : Store) (th : Hash) : Bool :=
  hasCreditRow s th && hasDebitRow s th &&
    (s.transactions.any fun t => decide (t.transaction_hash = th)) &&
    decide (creditedAmount s th < debitedAmount s th)

/-- The `receive_block` count query over
`unauthorized_spending ⋈ transaction_in_block` restricted to `bh`. -/
def unauthorizedInBlock (s : Store) (bh : Hash) : Bool :=
  s.transaction_in_block.any fun r =>
    decide (r.block_hash = bh) && unauthorizedSpendingHas s r.transaction_hash

/-- The `receive_block` count query over
`transaction_credit_debit ⋈ transaction_in_block` restricted to `bh`,
keeping rows with `debited_amount > credited_amount`. -/
def creditDebitViolationInBlock (s : Store) (bh : Hash) : Bool :=
  s.transaction_in_block.any fun r =>
    decide (r.block_hash = bh) && creditDebitViolation s r.transaction_hash

/-- The parent-walk of the recursive `ancestors` CTE, with explicit fuel.
On the acyclic stores the source can actually build, `fuel = s.blocks.length`
is enough to reach the root; on a cyclic store the SQL recursion would not
terminate at all, so no claim rests on that case. -/
def ancestorWalk (s : Store) : Nat → Hash → List Hash
  | 0, bh => [bh]
  | fuel + 1, bh =>
    bh :: (match s.blocks.find? (fun r => decide (r.block_hash = bh)) with
      | some r =>
        match r.parent_hash with
        | some p => ancestorWalk s fuel p
        | none => []
      | none => [])

/-- The set of `ancestor` values of the `ancestors` view for `bh`
(including `bh` itself); empty when `bh` is not a stored block. -/
def ancestorHashes (s : Store) (bh : Hash) : List Hash :=
  if s.blocks.any (fun r => decide (r.block_hash = bh)) then
    ancestorWalk s s.blocks.length bh
  else []

/-- `my_transaction_in_block` of the `block_consistency` view: the
`transaction_in_block` rows of `bh` and its ancestors. -/
def myTIB (s : Store) (bh : Hash) : List TIBRow :=
  s.transaction_in_block.filter fun r => (ancestorHashes s bh).contains r.block_hash

/-- `my_transaction_inputs`: inputs of the transactions in `my_transaction_in_block`
(one copy per joined `transaction_in_block` row, as in SQL). -/
def myTransactionInputs (s : Store) (bh : Hash) : List InRow :=
  (myTIB s bh).flatMap fun r =>
    s.transaction_inputs.filter fun i => decide (i.in_transaction_hash = r.transaction_hash)

/-- `my_transaction_outputs`: outputs of the transactions in
`my_transaction_in_block`. -/
def myTransactionOutputs (s : Store) (bh : Hash) : List OutRow :=
  (myTIB s bh).flatMap fun r =>
    s.transaction_outputs.filter fun o => decide (o.out_transaction_hash = r.transaction_hash)

/-- `error_input_referring_to_nonexistent_outputs`: inputs (in perspective)
whose referenced output is absent from the perspective. -/
def violationsMissingOutputs (s : Store) (bh : Hash) : Nat :=
  ((myTransactionInputs s bh).filter fun i =>
    ! (myTransactionOutputs s bh).any fun o =>
      decide (o.out_transaction_hash = i.out_transaction_hash ∧
              o.out_transaction_index = i.out_transaction_index)).length

/-- `error_double_spent`: referenced output coordinates spent more than once
within the perspective (group count = joined output copies × joined input
copies, as in SQL). -/
def violationsDoubleSpent (s : Store) (bh : Hash) : Nat :=
  ((((myTransactionOutputs s bh).map fun o =>
      (o.out_transaction_hash, o.out_transaction_index)).dedup).filter fun p =>
    1 < ((myTransactionOutputs s bh).filter fun o =>
          decide ((o.out_transaction_hash, o.out_transaction_index) = p)).length *
        ((myTransactionInputs s bh).filter fun i =>
          decide ((i.out_transaction_hash, i.out_transaction_index) = p)).length).length

/-- `total_violations_count` of the `block_consistency` view for `bh`. -/
def blockConsistencyCount (s : Store) (bh : Hash) : Nat :=
  violationsMissingOutputs s bh + violationsDoubleSpent s bh

/-- `SELECT total_violations_count FROM block_consistency WHERE
perspective_block = ?` via `query_row` (no row → SQLite error). -/
def queryBlockConsistency (s : Store) (bh : Hash) : Except String Nat :=
  if s.blocks.any (fun r => decide (r.block_hash = bh)) then
    .ok (blockConsistencyCount s bh)
  else .error "query returned no rows"

/-! ### Transaction raw insertion (§4.3) -/

/-- The output-insertion loop of `insert_transaction_raw` (enumerated
indices). -/
def insertOutputsLoop (th : Hash) : Store → Nat → List TransactionOutput → Except String Store
  | s, _, [] => .ok s
  | s, idx, o :: rest =>
    match execInsertOutput s th idx o.amount o.recipient_hash with
    | .error e => .error e
    | .ok (s', _) => insertOutputsLoop th s' (idx + 1) rest

/-- The input-insertion loop of `insert_transaction_raw`. -/
def insertInputsLoop (th : Hash) : Store → Nat → List TransactionInput → Except String Store
  | s, _, [] => .ok s
  | s, idx, i :: rest =>
    match execInsertInput s th idx i.transaction_hash i.output_index with
    | .error e => .error e
    | .ok (s', _) => insertInputsLoop th s' (idx + 1) rest

/-- `BlockchainStorage::insert_transaction_raw`: insert the `transactions`
row; only if it was actually inserted (not an ignored duplicate), insert the
outputs and then the inputs.  Constraint violations are reported as
`InvalidTxn`. -/
def insertTransactionRaw (c : Crypto) (s : Store) (txn : Transaction) : Except BErr Store :=
  match execInsertTransaction s txn.transaction_hash txn.payer (c.sha256 txn.payer)
      txn.signature with
  | .error e => .error (.invalidTxn e)
  | .ok (s1, rowCount) =>
    if 0 < rowCount then
      match insertOutputsLoop txn.transaction_hash s1 0 txn.outputs with
      | .error e => .error (.invalidTxn e)
      | .ok s2 =>
        match insertInputsLoop txn.transaction_hash s2 0 txn.inputs with
        | .error e => .error (.invalidTxn e)
        | .ok s3 => .ok s3
    else .ok s1

/-! ### `receive_block` (§4.2) -/

/-- `Transaction::verify_signature` through the black box: the payer key
must be 88 bytes long and the ECDSA verification must succeed. -/
def verifySignature (c : Crypto) (t : Transaction) : Bool :=
  decide (t.payer.length = 88) && c.verifySig t

/-- The code's "distinct output recipients" test: the number of outputs
equals the cardinality of the set of their recipient hashes. -/
def distinctRecipients (t : Transaction) : Bool :=
  decide (t.outputs.length = (t.outputs.map (·.recipient_hash)).dedup.length)

/-- The fast-fail pre-schema checks of `receive_block`, in source order;
`some msg` is the `InvalidReceivedBlock` message of the first failing
check. -/
def preChecks (c : Crypto) (b : Block) : Option String :=
  if 2000 < b.transactions.length then
    some "A block may have at most 2000 transactions"
  else if 2 ^ 63 ≤ b.nonce then
    some "Block nonce must be within 63 bits"
  else if ¬ ((match b.transactions with
      | [] => false
      | t0 :: _ => t0.inputs.isEmpty &&
          match t0.outputs with
          | [o] => decide (o.amount = BLOCK_REWARD)
          | _ => false) = true) then
    some "The first transaction must be a reward transaction"
  else if ¬ b.transactions.all
      (fun t => decide (1 ≤ t.outputs.length ∧ t.outputs.length ≤ 256)) then
    some "Every transaction must have at least one output and at most 256"
  else if ¬ (b.transactions.drop 1).all
      (fun t => decide (1 ≤ t.inputs.length ∧ t.inputs.length ≤ 256)) then
    some "Every transaction except for the first must have at least one input and at most 256"
  else if ¬ b.transactions.all
      (fun t => t.outputs.all (fun o => decide (o.amount ≤ MAX_MONEY))) then
    some "Every output of every transaction must have a value of no more than 100 billion"
  else if ¬ b.transactions.all distinctRecipients then
    some "Every transaction must have distinct output recipients"
  else if ¬ verifyHashChallenge c b MINIMUM_DIFFICULTY_LEVEL then
    some "Block has incorrect or insufficiently hard hash"
  else if ¬ b.transactions.all (verifySignature c) then
    some "Every transaction must be correctly signed"
  else none

/-- The first insertion loop of `receive_block`: `insert_transaction_raw`
for every transaction of the block. -/
def insertAllTxns (c : Crypto) : Store → List Transaction → Except BErr Store
  | s, [] => .ok s
  | s, t :: rest =>
    match insertTransactionRaw c s t with
    | .error e => .error e
    | .ok s' => insertAllTxns c s' rest

/-- The second insertion loop of `receive_block`: one `transaction_in_block`
row per transaction, with its index.  The raw SQLite error of a failing
insert is propagated unmapped. -/
def insertTIBLoop (bh : Hash) : Store → Nat → List Hash → Except BErr Store
  | s, _, [] => .ok s
  | s, idx, th :: rest =>
    match execInsertTIB s th bh idx with
    | .error _ => .error .sqlError
    | .ok (s', _) => insertTIBLoop bh s' (idx + 1) rest

/-- The body of `receive_block` inside its SQLite transaction: insert the
`blocks` row, all transactions, all `transaction_in_block` rows, then run
the three validation queries. -/
def receiveBlockBody (c : Crypto) (s : Store) (b : Block) : Except BErr Store :=
  match execInsertBlock s b.block_hash b.parent_hash b.nonce with
  | .error _ => .error .sqlError
  | .ok (s1, _) =>
    match insertAllTxns c s1 b.transactions with
    | .error e => .error e
    | .ok s2 =>
      match insertTIBLoop b.block_hash s2 0 (b.transactions.map (·.transaction_hash)) with
      | .error e => .error e
      | .ok s3 =>
        if unauthorizedInBlock s3 b.block_hash then
          .error (.invalidReceivedBlock "Transactions in block contain unauthorized spending")
        else if creditDebitViolationInBlock s3 b.block_hash then
          .error (.invalidReceivedBlock "Transactions in block spend more than referenced outputs")
        else
          match queryBlockConsistency s3 b.block_hash with
          | .error _ => .error .sqlError
          | .ok n =>
            if 0 < n then
              .error (.invalidReceivedBlock "Transactions in block are not consistent with ancestor blocks")
            else .ok s3

/-- `BlockchainStorage::receive_block`: pure pre-checks, then the body in a
SQLite transaction that commits on success and rolls back (leaving the
store untouched) when the body fails. -/
def receiveBlock (c : Crypto) (s : Store) (b : Block) : Option BErr × Store :=
  match preChecks c b with
  | some msg => (some (.invalidReceivedBlock msg), s)
  | none =>
    match receiveBlockBody c s b with
    | .error e => (some e, s)
    | .ok s' => (none, s')

/-! ### Longest chain, tentative transactions and the UTXO view -/

/-- `SELECT * FROM blocks ORDER BY block_height DESC, discovered_at ASC
LIMIT 1`: the tip of the longest chain.  With strict improvement required,
ties (which the monotone clock prevents for actually inserted rows) keep
the earlier row, matching the stable scan of the primary index. -/
def tipRow (s : Store) : Option BlockRow :=
  s.blocks.foldl
    (fun acc r =>
      match acc with
      | none => some r
      | some a =>
        if a.block_height < r.block_height ∨
            (r.block_height = a.block_height ∧ r.discovered_at < a.discovered_at) then
          some r
        else some a)
    none

/-- The parent-walk of the recursive `longest_chain` CTE: rows paired with
their `confirmations` count, fuelled like `ancestorWalk`. -/
def chainWalk (s : Store) : Nat → BlockRow → Nat → List (BlockRow × Nat)
  | 0, r, conf => [(r, conf)]
  | fuel + 1, r, conf =>
    (r, conf) ::
      (match r.parent_hash with
       | none => []
       | some p =>
         match s.blocks.find? (fun x => decide (x.block_hash = p)) with
         | none => []
         | some pr => chainWalk s fuel pr (conf + 1))

/-- The `longest_chain` view: from the tip, walk parent links, counting
confirmations from 1. -/
def longestChain (s : Store) : List (BlockRow × Nat) :=
  match tipRow s with
  | none => []
  | some tip => chainWalk s s.blocks.length tip 1

/-- `tx_confirmations` of the `utxo` view:
`transaction_in_block ⋈ longest_chain` on `block_hash`. -/
def txConfirmations (s : Store) : List (Hash × Nat) :=
  s.transaction_in_block.flatMap fun r =>
    (longestChain s).filterMap fun bc =>
      if bc.1.block_hash = r.block_hash then some (r.transaction_hash, bc.2) else none

/-- `all_utxo`: outputs no stored input references. -/
def allUtxo (s : Store) : List OutRow :=
  s.transaction_outputs.filter fun o =>
    ! s.transaction_inputs.any fun i =>
      decide (i.out_transaction_hash = o.out_transaction_hash ∧
              i.out_transaction_index = o.out_transaction_index)

/-- `all_utxo_confirmations`: each unspent output left-joined to the
confirmation count(s) of its producing transaction, `0` when there is
none. -/
def allUtxoConfirmations (s : Store) : List (OutRow × Nat) :=
  (allUtxo s).flatMap fun o =>
    match (txConfirmations s).filter (fun tc => decide (tc.1 = o.out_transaction_hash)) with
    | [] => [(o, 0)]
    | ms => ms.map fun tc => (o, tc.2)

/-- Membership in the `trustworthy_even_if_unconfirmed` CTE: the producing
transaction's payer is a trustworthy wallet *and* the transaction has at
least one input. -/
def trustedUnconfirmed (s : Store) (th : Hash) : Bool :=
  s.transactions.any fun t =>
    decide (t.transaction_hash = th) &&
    (s.trustworthy_wallets.any fun w => decide (w = t.payer_hash)) &&
    (s.transaction_inputs.any fun i => decide (i.in_transaction_hash = t.transaction_hash))

/-- The `utxo` view: unspent outputs with confirmations, filtered by
`confirmations > 0 OR` trusted-unconfirmed producer. -/
def utxoView (s : Store) : List (OutRow × Nat) :=
  (allUtxoConfirmations s).filter fun rc =>
    decide (0 < rc.2) || trustedUnconfirmed s rc.1.out_transaction_hash

/-- The rows summed by `find_wallet_balance(hash, required_confirmations)`. -/
def contributingRows (s : Store) (h : Hash) (rc : Nat) : List (OutRow × Nat) :=
  (utxoView s).filter fun r => decide (r.1.recipient_hash = h ∧ rc ≤ r.2)

/-- `BlockchainStorage::find_wallet_balance`. -/
def findWalletBalance (s : Store) (h : Hash) (rc : Nat) : Nat :=
  ((contributingRows s h rc).map (·.1.amount)).sum

/-- `BlockchainStorage::find_available_spend`: the wallet's `utxo` rows as
`(TransactionInput, amount)` pairs, in view order. -/
def findAvailableSpend (s : Store) (wh : Hash) : List (TransactionInput × Nat) :=
  ((utxoView s).filter fun r => decide (r.1.recipient_hash = wh)).map fun r =>
    (⟨r.1.out_transaction_hash, r.1.out_transaction_index⟩, r.1.amount)

/-- `lc_transaction_in_block` of `all_tentative_txns`. -/
def lcTIB (s : Store) : List TIBRow :=
  s.transaction_in_block.filter fun r =>
    (longestChain s).any fun bc => decide (bc.1.block_hash = r.block_hash)

/-- The `all_tentative_txns` view: transactions in no longest-chain block
that have at least one input. -/
def allTentativeTxns (s : Store) : List TxRow :=
  s.transactions.filter fun t =>
    (! (lcTIB s).any fun r => decide (r.transaction_hash = t.transaction_hash)) &&
    (s.transaction_inputs.any fun i => decide (i.in_transaction_hash = t.transaction_hash))

/-! ### Wallets, tentative transactions and `create_simple_transaction` -/

/-- `Hash::zeroes()`. -/
def zeroHash : Hash := List.replicate 32 0

/-- A wallet: its 88-byte DER-serialized public key, and its (black-box)
ECDSA signing function over the signature-data encoding. -/
structure Wallet where
  public_serialized : Bytes
  signFn : Bytes → Bytes

/-- `Wallet::create_raw_transaction`: `assert!` the input/output counts,
sign, `assert!` the new signature verifies, then recompute the transaction
hash as SHA-256 of the signature bytes.  A failing `assert!` is the Rust
panic, modelled as `BErr.panicked`. -/
def createRawTransaction (c : Crypto) (w : Wallet) (inputs : List TransactionInput)
    (outputs : List TransactionOutput) : Except BErr Transaction :=
  if ¬ (inputs.length < 256 ∧ outputs.length < 256) then .error .panicked
  else
    let sig := w.signFn (c.encodeSigData w.public_serialized inputs outputs)
    let txn0 : Transaction := ⟨w.public_serialized, inputs, outputs, sig, zeroHash⟩
    if verifySignature c txn0 then .ok { txn0 with transaction_hash := c.sha256 sig }
    else .error .panicked

/-- `BlockchainStorage::receive_tentative_transaction_internal`: raw-insert
the transaction (`InvalidTxn` becoming an `InvalidTentativeTxn` keyed by the
transaction hash), then check the `unauthorized_spending` and
`transaction_credit_debit` views for this hash. -/
def receiveTentativeTransactionInternal (c : Crypto) (s : Store) (tx : Transaction) :
    Except BErr Store :=
  let th := tx.transaction_hash
  match insertTransactionRaw c s tx with
  | .error (.invalidTxn msg) => .error (.invalidTentativeTxn [(th, msg)])
  | .error e => .error e
  | .ok s1 =>
    if unauthorizedSpendingHas s1 th then
      .error (.invalidTentativeTxn [(th, "The tentative transaction contain unauthorized spending")])
    else if creditDebitViolation s1 th then
      .error (.invalidTentativeTxn [(th, "The tentative transaction spends more than the referenced output")])
    else .ok s1

/-- The `try_fold` of `create_simple_transaction`, accumulating inputs and
the wrapped `u64` running sum.  Mirroring the Rust control flow, `.error`
is the *successful* early exit (enough gathered) and `.ok` means the rows
ran out with the sum still short. -/
def tryGather (requested : Nat) :
    List (TransactionInput × Nat) → List TransactionInput → Nat →
    Except (List TransactionInput × Nat) (List TransactionInput × Nat)
  | [], acc, sum => .ok (acc, sum)
  | (ti, amt) :: rest, acc, sum =>
    let sum' := (sum + amt) % 2 ^ 64
    let acc' := acc ++ [ti]
    if requested ≤ sum' then .error (acc', sum') else tryGather requested rest acc' sum'

/-- `BlockchainStorage::create_simple_transaction`.  The
`make_wallet_trustworthy` insert runs in autocommit *before* the SQLite
transaction, so it survives even when the rest fails; everything after it
commits only on full success. -/
def createSimpleTransaction (c : Crypto) (s : Store) (w : Wallet) (requested : Nat)
    (recipient : Hash) : Except BErr Transaction × Store :=
  let wh := c.sha256 w.public_serialized
  match execInsertTrustworthy s wh with
  | .error _ => (.error .sqlError, s)
  | .ok (s1, _) =>
    match tryGather requested (findAvailableSpend s1 wh) [] 0 with
    | .ok (_, available) => (.error (.insufficientBalance requested available), s1)
    | .error (inputs, total) =>
      let outputs :=
        if wh ≠ recipient then
          ⟨requested, recipient⟩ ::
            (if requested < total then [⟨total - requested, wh⟩] else [])
        else [⟨total, recipient⟩]
      match createRawTransaction c w inputs outputs with
      | .error e => (.error e, s1)
      | .ok txn =>
        match receiveTentativeTransactionInternal c s1 txn with
        | .error e => (.error e, s1)
        | .ok s2 => (.ok txn, s2)

/-! ### `get_mineable_tentative_transactions` and `prepare_mineable_block` -/

/-- Stable insertion into a list sorted by a `Nat` key. -/
def insertSorted {α : Type} (key : α → Nat) (x : α) : List α → List α
  | [] => [x]
  | y :: ys => if key x < key y then x :: y :: ys else y :: insertSorted key x ys

/-- Stable sort by a `Nat` key (models SQL `ORDER BY key ASC`). -/
def sortByKey {α : Type} (key : α → Nat) : List α → List α
  | [] => []
  | x :: xs => insertSorted key x (sortByKey key xs)

/-- `BlockchainStorage::fill_transaction_in_out`: rebuild a `Transaction`
value from its stored rows, inputs and outputs ordered by their indices. -/
def fillTransactionInOut (s : Store) (th : Hash) (payer : Bytes) (sig : Bytes) : Transaction :=
  let inputs :=
    (sortByKey (·.in_transaction_index)
      (s.transaction_inputs.filter fun i => decide (i.in_transaction_hash = th))).map
      fun i => TransactionInput.mk i.out_transaction_hash i.out_transaction_index
  let outputs :=
    (sortByKey (·.out_transaction_index)
      (s.transaction_outputs.filter fun o => decide (o.out_transaction_hash = th))).map
      fun o => TransactionOutput.mk o.amount o.recipient_hash
  ⟨payer, inputs, outputs, sig, th⟩

/-- One pass of the candidate loop of `get_mineable_tentative_transactions`:
per candidate, a savepoint inserts the `transaction_in_block` row against
the sentinel, checks `block_consistency`, and either keeps (releases) or
rolls back the savepoint.  A raw SQL failure aborts the whole call. -/
def mineableCandLoop :
    Store → List Transaction → Bool → List (Hash × Bytes × Bytes) →
    Except BErr (Store × List Transaction × Bool)
  | s, rv, prog, [] => .ok (s, rv, prog)
  | s, rv, prog, (th, p, sg) :: rest =>
    match execInsertTIB s th DEADFACE rv.length with
    | .error _ => .error .sqlError
    | .ok (s', _) =>
      match queryBlockConsistency s' DEADFACE with
      | .error _ => .error .sqlError
      | .ok n =>
        if 0 < n then mineableCandLoop s rv prog rest
        else mineableCandLoop s' (rv ++ [fillTransactionInOut s' th p sg]) true rest

/-- The outer `while rv.len() < limit` loop, fuelled (each continuing
iteration makes progress, so `limit + 1` fuel is enough). -/
def mineableOuter (limit : Nat) : Nat → Store → List Transaction →
    Except BErr (Store × List Transaction)
  | 0, s, rv => .ok (s, rv)
  | fuel + 1, s, rv =>
    if rv.length < limit then
      let cands :=
        ((sortByKey (·.discovered_at) (allTentativeTxns s)).take (limit - rv.length)).map
          fun t => (t.transaction_hash, t.payer, t.signature)
      if cands.isEmpty then .ok (s, rv)
      else
        match mineableCandLoop s rv false cands with
        | .error e => .error e
        | .ok (s', rv', prog) =>
          if prog then mineableOuter limit fuel s' rv' else .ok (s', rv')
    else .ok (s, rv)

/-- `BlockchainStorage::get_mineable_tentative_transactions`: inside a
SQLite transaction, find the tip, insert the `DEAD_FACE` sentinel block
under it, greedily accept consistent tentative transactions — and then drop
the transaction *without committing*, so the store that the caller keeps is
always the input store. -/
def getMineableTentativeTransactions (s : Store) (limitOpt : Option Nat) :
    Except BErr (List Transaction × Option Hash) × Store :=
  let limit := limitOpt.getD 100
  let parentHash := (tipRow s).map (·.block_hash)
  match execInsertBlock s DEADFACE parentHash 0 with
  | .error _ => (.error .sqlError, s)
  | .ok (s1, _) =>
    match mineableOuter limit (limit + 1) s1 [] with
    | .error e => (.error e, s)
    | .ok (_, rv) => (.ok (rv, parentHash), s)

/-- `Block::new_mine_block`: a parentless block holding one freshly signed
reward transaction to the miner. -/
def newMineBlock (c : Crypto) (w : Wallet) : Except BErr Block :=
  match createRawTransaction c w []
      [TransactionOutput.mk BLOCK_REWARD (c.sha256 w.public_serialized)] with
  | .error e => .error e
  | .ok txn => .ok ⟨0, [txn], none, zeroHash⟩

/-- `BlockchainStorage::prepare_mineable_block`: the reward transaction
followed by the mineable tentative transactions, under the current tip. -/
def prepareMineableBlock (c : Crypto) (s : Store) (w : Wallet) : Except BErr Block × Store :=
  match newMineBlock c w with
  | .error e => (.error e, s)
  | .ok b0 =>
    match getMineableTentativeTransactions s none with
    | (.error e, s') => (.error e, s')
    | (.ok (txs, ph), s') =>
      (.ok { b0 with transactions := b0.transactions ++ txs, parent_hash := ph }, s')


/-! ### Statement helpers -/

/-- A concrete reward transaction for witnesses, valid under `trivCrypto`:
an 88-byte payer key, no inputs, one `BLOCK_REWARD` output, and a 32-byte
transaction hash equal to `trivCrypto.sha256` of its signature. -/
def rewardTxW : Transaction :=
  ⟨List.replicate 88 7, [], [⟨BLOCK_REWARD, List.replicate 32 9⟩], [1, 2, 3],
    List.replicate 31 0 ++ [3]⟩

/-- A concrete block for witnesses: just the reward transaction, no parent,
and the block hash that `trivCrypto` assigns to its challenge encoding
(all zero bytes, so any difficulty is met). -/
def blockW : Block := ⟨0, [rewardTxW], none, List.replicate 32 0⟩

/-- The `transaction_in_block` rows `receive_block` creates for a block:
one per transaction hash, indices counting up from `idx`. -/
def tibRows (bh : Hash) : Nat → List Hash → List TIBRow
  | _, [] => []
  | idx, th :: rest => ⟨th, bh, idx⟩ :: tibRows bh (idx + 1) rest

/-- The specification-side reading of the nine `receive_block` pre-schema
checks (§4.2 items 1–9): a block passes the pre-check stage iff all of
these hold. -/
def preChecksSpec (c : Crypto) (b : Block) : Prop :=
  (1 ≤ b.transactions.length ∧ b.transactions.length ≤ 2000) ∧
  b.nonce < 2 ^ 63 ∧
  (∀ t0, b.transactions.head? = some t0 →
    t0.inputs.length = 0 ∧ t0.outputs.length = 1 ∧
    ∀ o ∈ t0.outputs, o.amount = BLOCK_REWARD) ∧
  (∀ t ∈ b.transactions, 1 ≤ t.outputs.length ∧ t.outputs.length ≤ 256) ∧
  (∀ t ∈ b.transactions.drop 1, 1 ≤ t.inputs.length ∧ t.inputs.length ≤ 256) ∧
  (∀ t ∈ b.transactions, ∀ o ∈ t.outputs, o.amount ≤ MAX_MONEY) ∧
  (∀ t ∈ b.transactions, (t.outputs.map (·.recipient_hash)).Nodup) ∧
  verifyHashChallenge c b MINIMUM_DIFFICULTY_LEVEL = true ∧
  (∀ t ∈ b.transactions, verifySignature c t = true)

/-- What a successful `receive_block` must have persisted: the block row,
a `transactions` row per transaction, and the `transaction_in_block` row
linking each transaction to the block at its index. -/
def blockCommitted (s2 : Store) (b : Block) : Prop :=
  (∃ r ∈ s2.blocks, r.block_hash = b.block_hash) ∧
  (∀ t ∈ b.transactions, ∃ r ∈ s2.transactions,
    r.transaction_hash = t.transaction_hash) ∧
  (∀ row ∈ tibRows b.block_hash 0 (b.transactions.map (·.transaction_hash)),
    row ∈ s2.transaction_in_block)

/-- An output no stored input references (the spec's notion of unspent). -/
def isUnspent (s : Store) (o : OutRow) : Prop :=
  ¬ ∃ i ∈ s.transaction_inputs,
      i.out_transaction_hash = o.out_transaction_hash ∧
      i.out_transaction_index = o.out_transaction_index

/-- The transaction `th` sits in some block on the longest chain. -/
def inLongestChainBlock (s : Store) (th : Hash) : Prop :=
  ∃ r ∈ s.transaction_in_block, r.transaction_hash = th ∧
    ∃ bc ∈ longestChain s, bc.1.block_hash = r.block_hash

/-- The payer wallet of the stored transaction `th` is in the trust set. -/
def payerTrusted (s : Store) (th : Hash) : Prop :=
  ∃ t ∈ s.transactions, t.transaction_hash = th ∧
    t.payer_hash ∈ s.trustworthy_wallets

/-- A concrete store for witnesses: one genesis block holding one reward
transaction with a single 1000-unit output to the wallet hash
`List.replicate 32 8`; no inputs, no trust set. -/
def storeW : Store :=
  ⟨[⟨List.replicate 32 5, none, 0, 0, 0⟩],
   [⟨List.replicate 32 6, List.replicate 88 9, List.replicate 32 4, 0, [3]⟩],
   [⟨List.replicate 32 6, List.replicate 32 5, 0⟩],
   [⟨List.replicate 32 6, 0, 1000, List.replicate 32 8⟩],
   [], [], [], [], 10⟩

/-- The claim's "accumulating the amounts never reaches the requested
amount": every sum of a non-empty prefix of the iterated amounts stays
below the target.  (The fold checks the running sum only after adding an
input, so the empty prefix does not count: with no visible UTXOs even a
requested amount of 0 is never "reached".) -/
def neverReaches (requested : Nat) (amounts : List Nat) : Prop :=
  ∀ n, n + 1 ≤ amounts.length → (amounts.take (n + 1)).sum < requested

/-- A concrete wallet for witnesses (88-byte key, constant signature). -/
def walletW : Wallet := ⟨List.replicate 88 7, fun _ => [1, 2, 3]⟩

/-- The store after marking `walletW` trustworthy on the empty store. -/
def s1W : Store := ⟨[], [], [], [], [], [List.replicate 31 0 ++ [88]], [], [], 0⟩

/-- A concrete store for the C6 witness: like `storeW` but the reward
output pays `walletW`'s hash (`trivCrypto.sha256 walletW.public_serialized
= List.replicate 31 0 ++ [88]`). -/
def storeC6 : Store :=
  ⟨[⟨List.replicate 32 5, none, 0, 0, 0⟩],
   [⟨List.replicate 32 6, List.replicate 88 9, List.replicate 32 4, 0, [3]⟩],
   [⟨List.replicate 32 6, List.replicate 32 5, 0⟩],
   [⟨List.replicate 32 6, 0, 1000, List.replicate 31 0 ++ [88]⟩],
   [], [], [], [], 10⟩

/-- `storeC6` after marking `walletW` trustworthy. -/
def s1C6 : Store :=
  ⟨[⟨List.replicate 32 5, none, 0, 0, 0⟩],
   [⟨List.replicate 32 6, List.replicate 88 9, List.replicate 32 4, 0, [3]⟩],
   [⟨List.replicate 32 6, List.replicate 32 5, 0⟩],
   [⟨List.replicate 32 6, 0, 1000, List.replicate 31 0 ++ [88]⟩],
   [], [List.replicate 31 0 ++ [88]], [], [], 10⟩

/-- The transaction `create_simple_transaction` builds in the C6 witness:
300 units to the recipient and 700 units of change back to the wallet. -/
def txnC6 : Transaction :=
  ⟨List.replicate 88 7, [⟨List.replicate 32 6, 0⟩],
   [⟨300, List.replicate 32 1⟩, ⟨700, List.replicate 31 0 ++ [88]⟩],
   [1, 2, 3], List.replicate 31 0 ++ [3]⟩

/-! ## Theorems -/

/-! ### Claim C4: `Hash::has_difficulty` -/

theorem leadingZeros8_spec :
    ∀ b < 256, ∀ d < 8, (leadingZeros8 b ≥ d ↔ ∀ i < d, b / 2 ^ (7 - i) % 2 = 0) := by
  decide

theorem byte_nonzero_bit :
    ∀ b < 256, b ≠ 0 → ∃ i, i < 8 ∧ b / 2 ^ (7 - i) % 2 = 1 := by
  decide

theorem hasDifficultyGo_spec (h : List Nat) :
    ∀ d : Nat, (∀ b ∈ h, b < 256) → d < 8 * h.length →
    hasDifficultyGo h d = some (decide (∀ i < d, bitAt h i = 0)) := by
  induction h with
  | nil => intro d _ hd; simp at hd
  | cons b rest ih =>
    intro d hb hd
    by_cases h0 : d = 0
    · subst h0
      simp [hasDifficultyGo]
    · by_cases h8 : d < 8
      · have hbyte := leadingZeros8_spec b (hb b (by simp)) d h8
        have : (∀ i < d, b / 2 ^ (7 - i) % 2 = 0) ↔ (∀ i < d, bitAt (b :: rest) i = 0) := by
          constructor
          · intro hall i hi
            have : i < 8 := lt_trans hi h8
            simp only [bitAt, if_pos this]
            exact hall i hi
          · intro hall i hi
            have hi8 : i < 8 := lt_trans hi h8
            have := hall i hi
            simpa only [bitAt, if_pos hi8] using this
        rw [hasDifficultyGo, if_neg h0, if_pos h8]
        congr 1
        rw [decide_eq_decide]
        exact hbyte.trans this
      · -- d ≥ 8
        by_cases hbz : b = 0
        · subst hbz
          have hrest : ∀ x ∈ rest, x < 256 := fun x hx => hb x (by simp [hx])
          have hd' : d - 8 < 8 * rest.length := by
            simp only [List.length_cons] at hd
            omega
          rw [hasDifficultyGo, if_neg h0, if_neg h8, if_neg (by simp)]
          rw [ih (d - 8) hrest hd']
          congr 1
          rw [decide_eq_decide]
          constructor
          · intro hall i hi
            by_cases hi8 : i < 8
            · simp [bitAt, hi8, Nat.zero_div]
            · simp only [bitAt, if_neg hi8]
              exact hall (i - 8) (by omega)
          · intro hall j hj
            have := hall (j + 8) (by omega)
            simpa only [bitAt, if_neg (by omega : ¬ j + 8 < 8), Nat.add_sub_cancel] using this
        · rw [hasDifficultyGo, if_neg h0, if_neg h8, if_pos hbz]
          congr 1
          symm
          rw [decide_eq_false_iff_not]
          intro hall
          obtain ⟨i, hi8, hbit⟩ := byte_nonzero_bit b (hb b (by simp)) hbz
          have := hall i (by omega)
          simp only [bitAt, if_pos hi8] at this
          omega

/-- Claim C4: for every 32-byte hash `h` (all bytes `< 256`) and every
difficulty `d ∈ [0,255]`, `Hash::has_difficulty` never reaches its
`unreachable!()` branch, and returns `true` iff the first `d` leading bits
of `h` (big-endian byte order, most-significant bit first within a byte)
are zero. -/
theorem C4_has_difficulty_bits (h : Hash) (d : Nat)
    (hlen : h.length = 32) (hd : d ≤ 255) (hb : ∀ b ∈ h, b < 256) :
    hasDifficultyGo h d ≠ none ∧
    (hasDifficulty h d = true ↔ ∀ i < d, bitAt h i = 0) := by
  have hspec := hasDifficultyGo_spec h d hb (by omega)
  constructor
  · rw [hspec]; simp
  · rw [hasDifficulty, hspec]
    simp

/-- Witness for C4 at the all-zero 32-byte hash with difficulty 12. -/
theorem C4_has_difficulty_bits_witness :
    hasDifficultyGo (List.replicate 32 0) 12 ≠ none ∧
    (hasDifficulty (List.replicate 32 0) 12 = true ↔
      ∀ i < 12, bitAt (List.replicate 32 0) i = 0) :=
  C4_has_difficulty_bits (List.replicate 32 0) 12 (by decide) (by decide) (by decide)

/-! ### Claim C5: solving implies verifying -/

/-- Claim C5: whenever the nonce-solving loop reports success, the
resulting block passes `verify_hash_challenge` at the same difficulty. -/
theorem C5_solve_implies_verify (c : Crypto) (d : Nat) :
    ∀ (n : Nat) (b b' : Block), solveHashChallenge c d n b = (true, b') →
    verifyHashChallenge c b' d = true := by
  intro n
  induction n with
  | zero => intro b b' h; simp [solveHashChallenge] at h
  | succ k ih =>
    intro b b' h
    rw [solveHashChallenge] at h
    by_cases hdiff : hasDifficulty (c.sha256 (toHashChallenge c b)) d
    · rw [if_pos hdiff] at h
      simp only [Prod.mk.injEq] at h
      obtain ⟨-, rfl⟩ := h
      have henc : toHashChallenge c { b with block_hash := c.sha256 (toHashChallenge c b) } =
          toHashChallenge c b := rfl
      simp [verifyHashChallenge, henc, hdiff]
    · rw [if_neg hdiff] at h
      exact ih _ b' h

/-- Witness for C5: with the trivial crypto, a one-try solve at difficulty
12 succeeds and the solved block verifies. -/
theorem C5_solve_implies_verify_witness :
    verifyHashChallenge trivCrypto
      (solveHashChallenge trivCrypto 12 1 ⟨0, [], none, []⟩).2 12 = true :=
  C5_solve_implies_verify trivCrypto 12 1 ⟨0, [], none, []⟩
    (solveHashChallenge trivCrypto 12 1 ⟨0, [], none, []⟩).2 (by decide)
/-! ### Claim C8: mining preparation is a dry run -/

theorem getMineable_snd (s : Store) (limitOpt : Option Nat) :
    (getMineableTentativeTransactions s limitOpt).2 = s := by
  unfold getMineableTentativeTransactions
  dsimp only
  split
  · rfl
  · split
    · rfl
    · rfl

/-- Claim C8: `get_mineable_tentative_transactions` and
`prepare_mineable_block` are dry runs: whatever they return, the store the
caller keeps is exactly the store it started with — the sentinel block row
and the probing `transaction_in_block` rows are never committed. -/
theorem C8_mineable_never_commits (c : Crypto) (s : Store) (w : Wallet)
    (limitOpt : Option Nat) :
    (getMineableTentativeTransactions s limitOpt).2 = s ∧
    (prepareMineableBlock c s w).2 = s := by
  refine ⟨getMineable_snd s limitOpt, ?_⟩
  unfold prepareMineableBlock
  cases hn : newMineBlock c w with
  | error e => rfl
  | ok b0 =>
    have h2 := getMineable_snd s none
    rcases hg : getMineableTentativeTransactions s none with ⟨res, s2⟩
    rw [hg] at h2
    subst h2
    cases res <;> simp [hg]

/-! ### Insertion lemmas shared by the `receive_block` claims -/

theorem execInsertBlock_ok {s : Store} {bh : Hash} {ph : Option Hash} {n : Nat}
    {s' : Store} {k : Nat} (h : execInsertBlock s bh ph n = .ok (s', k)) :
    (∀ r ∈ s.blocks, r ∈ s'.blocks) ∧ (∃ r ∈ s'.blocks, r.block_hash = bh) ∧
    (bh.length = 32 ∨ bh = DEADFACE) ∧ n < 2 ^ 63 ∧
    s'.transactions = s.transactions ∧
    s'.transaction_in_block = s.transaction_in_block ∧
    s'.transaction_outputs = s.transaction_outputs ∧
    s'.transaction_inputs = s.transaction_inputs ∧
    s'.trustworthy_wallets = s.trustworthy_wallets := by
  simp only [execInsertBlock] at h
  split_ifs at h with h1 h2 h3 h4
  · -- duplicate primary key: ignored
    simp only [Except.ok.injEq, Prod.mk.injEq] at h
    obtain ⟨hs, -⟩ := h
    subst hs
    simp only [List.any_eq_true, decide_eq_true_eq] at h3
    obtain ⟨r, hr, hhash⟩ := h3
    exact ⟨fun r hr => hr, ⟨r, hr, hhash⟩, h1, by omega,
      rfl, rfl, rfl, rfl, rfl⟩
  · -- actual insertion
    simp only [Except.ok.injEq, Prod.mk.injEq] at h
    obtain ⟨hs, -⟩ := h
    subst hs
    simp only [List.any_eq_true, decide_eq_true_eq, not_exists] at h3
    refine ⟨?_, ?_, h1, by omega, rfl, rfl, rfl, rfl, rfl⟩
    · intro r hr
      have hne : ¬ r.block_hash = bh := fun he => h3 r ⟨hr, he⟩
      simp only [List.mem_map, List.mem_append]
      exact ⟨r, Or.inl hr, by simp [hne]⟩
    · refine ⟨BlockRow.mk bh ph
          (triggerHeight (s.blocks ++ [⟨bh, ph, 0, n, s.clock⟩]) ph) n s.clock, ?_, rfl⟩
      simp only [List.mem_map, List.mem_append]
      exact ⟨⟨bh, ph, 0, n, s.clock⟩, Or.inr (by simp), by simp⟩

theorem execInsertTransaction_ok {s : Store} {th : Hash} {payer : Bytes}
    {payerHash : Hash} {sig : Bytes} {s' : Store} {k : Nat}
    (h : execInsertTransaction s th payer payerHash sig = .ok (s', k)) :
    (∀ r ∈ s.transactions, r ∈ s'.transactions) ∧
    (∃ r ∈ s'.transactions, r.transaction_hash = th) ∧
    th.length = 32 ∧ payer.length = 88 ∧ payerHash.length = 32 ∧
    s'.blocks = s.blocks ∧
    s'.transaction_in_block = s.transaction_in_block ∧
    s'.transaction_outputs = s.transaction_outputs ∧
    s'.transaction_inputs = s.transaction_inputs ∧
    s'.trustworthy_wallets = s.trustworthy_wallets := by
  simp only [execInsertTransaction] at h
  split_ifs at h with h1 h2 h3 h4
  · -- duplicate primary key: ignored
    simp only [Except.ok.injEq, Prod.mk.injEq] at h
    obtain ⟨hs, -⟩ := h
    subst hs
    simp only [List.any_eq_true, decide_eq_true_eq] at h4
    obtain ⟨r, hr, hhash⟩ := h4
    exact ⟨fun r hr => hr, ⟨r, hr, hhash⟩, h1, h2, h3, rfl, rfl, rfl, rfl, rfl⟩
  · -- actual insertion
    simp only [Except.ok.injEq, Prod.mk.injEq] at h
    obtain ⟨hs, -⟩ := h
    subst hs
    refine ⟨fun r hr => by simp [hr], ⟨⟨th, payer, payerHash, s.clock, sig⟩, by simp, rfl⟩,
      h1, h2, h3, rfl, rfl, rfl, rfl, rfl⟩

theorem execInsertOutput_ok {s : Store} {th : Hash} {idx amount : Nat}
    {recipient : Hash} {s' : Store} {k : Nat}
    (h : execInsertOutput s th idx amount recipient = .ok (s', k)) :
    (∀ r ∈ s.transaction_outputs, r ∈ s'.transaction_outputs) ∧
    s'.blocks = s.blocks ∧ s'.transactions = s.transactions ∧
    s'.transaction_in_block = s.transaction_in_block ∧
    s'.transaction_inputs = s.transaction_inputs ∧
    s'.trustworthy_wallets = s.trustworthy_wallets := by
  simp only [execInsertOutput] at h
  split_ifs at h with h1 h2 h3 h4 h5 h6
  all_goals
    simp only [Except.ok.injEq, Prod.mk.injEq] at h
  · obtain ⟨hs, -⟩ := h
    subst hs
    exact ⟨fun r hr => hr, rfl, rfl, rfl, rfl, rfl⟩
  · obtain ⟨hs, -⟩ := h
    subst hs
    exact ⟨fun r hr => by simp [hr], rfl, rfl, rfl, rfl, rfl⟩

theorem execInsertInput_ok {s : Store} {inTh : Hash} {inIdx : Nat} {outTh : Hash}
    {outIdx : Nat} {s' : Store} {k : Nat}
    (h : execInsertInput s inTh inIdx outTh outIdx = .ok (s', k)) :
    (∀ r ∈ s.transaction_inputs, r ∈ s'.transaction_inputs) ∧
    s'.blocks = s.blocks ∧ s'.transactions = s.transactions ∧
    s'.transaction_in_block = s.transaction_in_block ∧
    s'.transaction_outputs = s.transaction_outputs ∧
    s'.trustworthy_wallets = s.trustworthy_wallets := by
  simp only [execInsertInput] at h
  split_ifs at h with h1 h2 h3 h4
  all_goals
    simp only [Except.ok.injEq, Prod.mk.injEq] at h
  · obtain ⟨hs, -⟩ := h
    subst hs
    exact ⟨fun r hr => hr, rfl, rfl, rfl, rfl, rfl⟩
  · obtain ⟨hs, -⟩ := h
    subst hs
    exact ⟨fun r hr => by simp [hr], rfl, rfl, rfl, rfl, rfl⟩

theorem execInsertTIB_ok {s : Store} {th bh : Hash} {idx : Nat} {s' : Store} {k : Nat}
    (h : execInsertTIB s th bh idx = .ok (s', k)) :
    s'.transaction_in_block = s.transaction_in_block ++ [⟨th, bh, idx⟩] ∧
    s'.blocks = s.blocks ∧ s'.transactions = s.transactions ∧
    s'.transaction_outputs = s.transaction_outputs ∧
    s'.transaction_inputs = s.transaction_inputs ∧
    s'.trustworthy_wallets = s.trustworthy_wallets := by
  simp only [execInsertTIB] at h
  split_ifs at h with h1 h2 h3 h4 h5
  simp only [Except.ok.injEq, Prod.mk.injEq] at h
  obtain ⟨hs, -⟩ := h
  subst hs
  exact ⟨rfl, rfl, rfl, rfl, rfl, rfl⟩

theorem insertOutputsLoop_ok {th : Hash} :
    ∀ (outs : List TransactionOutput) (s : Store) (idx : Nat) (s' : Store),
    insertOutputsLoop th s idx outs = .ok s' →
    s'.blocks = s.blocks ∧ s'.transactions = s.transactions ∧
    s'.transaction_in_block = s.transaction_in_block ∧
    s'.trustworthy_wallets = s.trustworthy_wallets := by
  intro outs
  induction outs with
  | nil =>
    intro s idx s' h
    simp only [insertOutputsLoop, Except.ok.injEq] at h
    subst h
    exact ⟨rfl, rfl, rfl, rfl⟩
  | cons o rest ih =>
    intro s idx s' h
    simp only [insertOutputsLoop] at h
    cases he : execInsertOutput s th idx o.amount o.recipient_hash with
    | error e => rw [he] at h; exact absurd h (by simp)
    | ok pr =>
      obtain ⟨s1, k⟩ := pr
      rw [he] at h
      simp only [] at h
      obtain ⟨-, hb, ht, htib, -, htr⟩ := execInsertOutput_ok he
      obtain ⟨ihb, iht, ihtib, ihtr⟩ := ih s1 (idx + 1) s' h
      exact ⟨ihb.trans hb, iht.trans ht, ihtib.trans htib, ihtr.trans htr⟩

theorem insertInputsLoop_ok {th : Hash} :
    ∀ (ins : List TransactionInput) (s : Store) (idx : Nat) (s' : Store),
    insertInputsLoop th s idx ins = .ok s' →
    s'.blocks = s.blocks ∧ s'.transactions = s.transactions ∧
    s'.transaction_in_block = s.transaction_in_block ∧
    s'.trustworthy_wallets = s.trustworthy_wallets := by
  intro ins
  induction ins with
  | nil =>
    intro s idx s' h
    simp only [insertInputsLoop, Except.ok.injEq] at h
    subst h
    exact ⟨rfl, rfl, rfl, rfl⟩
  | cons i rest ih =>
    intro s idx s' h
    simp only [insertInputsLoop] at h
    cases he : execInsertInput s th idx i.transaction_hash i.output_index with
    | error e => rw [he] at h; exact absurd h (by simp)
    | ok pr =>
      obtain ⟨s1, k⟩ := pr
      rw [he] at h
      simp only [] at h
      obtain ⟨-, hb, ht, htib, -, htr⟩ := execInsertInput_ok he
      obtain ⟨ihb, iht, ihtib, ihtr⟩ := ih s1 (idx + 1) s' h
      exact ⟨ihb.trans hb, iht.trans ht, ihtib.trans htib, ihtr.trans htr⟩

theorem insertTransactionRaw_ok {c : Crypto} {s : Store} {txn : Transaction} {s' : Store}
    (h : insertTransactionRaw c s txn = .ok s') :
    (∀ r ∈ s.transactions, r ∈ s'.transactions) ∧
    (∃ r ∈ s'.transactions, r.transaction_hash = txn.transaction_hash) ∧
    txn.transaction_hash.length = 32 ∧ txn.payer.length = 88 ∧
    (c.sha256 txn.payer).length = 32 ∧
    s'.blocks = s.blocks ∧
    s'.transaction_in_block = s.transaction_in_block ∧
    s'.trustworthy_wallets = s.trustworthy_wallets := by
  unfold insertTransactionRaw at h
  cases he : execInsertTransaction s txn.transaction_hash txn.payer (c.sha256 txn.payer)
        txn.signature with
  | error e => rw [he] at h; exact absurd h (by simp)
  | ok pr =>
    obtain ⟨s1, rowCount⟩ := pr
    rw [he] at h
    simp only [] at h
    obtain ⟨hsub, hex, hl1, hl2, hl3, hb, htib, -, -, htr⟩ := execInsertTransaction_ok he
    by_cases hrc : 0 < rowCount
    · rw [if_pos hrc] at h
      cases ho : insertOutputsLoop txn.transaction_hash s1 0 txn.outputs with
      | error e => rw [ho] at h; exact absurd h (by simp)
      | ok s2 =>
        rw [ho] at h
        simp only [] at h
        cases hi : insertInputsLoop txn.transaction_hash s2 0 txn.inputs with
        | error e => rw [hi] at h; exact absurd h (by simp)
        | ok s3 =>
          rw [hi] at h
          simp only [Except.ok.injEq] at h
          subst h
          obtain ⟨hob, hot, hotib, hotr⟩ := insertOutputsLoop_ok txn.outputs s1 0 s2 ho
          obtain ⟨hib, hit, hitib, hitr⟩ := insertInputsLoop_ok txn.inputs s2 0 s3 hi
          refine ⟨?_, ?_, hl1, hl2, hl3, ?_, ?_, ?_⟩
          · intro r hr
            have : r ∈ s1.transactions := hsub r hr
            rw [← hot] at this
            rw [← hit] at this
            exact this
          · obtain ⟨r, hr, hrh⟩ := hex
            refine ⟨r, ?_, hrh⟩
            rw [hit, hot]
            exact hr
          · exact hib.trans (hob.trans hb)
          · exact hitib.trans (hotib.trans htib)
          · exact hitr.trans (hotr.trans htr)
    · rw [if_neg hrc] at h
      simp only [Except.ok.injEq] at h
      subst h
      exact ⟨hsub, hex, hl1, hl2, hl3, hb, htib, htr⟩

theorem insertAllTxns_ok {c : Crypto} :
    ∀ (txs : List Transaction) (s s' : Store), insertAllTxns c s txs = .ok s' →
    (∀ r ∈ s.transactions, r ∈ s'.transactions) ∧
    (∀ t ∈ txs, (∃ r ∈ s'.transactions, r.transaction_hash = t.transaction_hash) ∧
      t.transaction_hash.length = 32 ∧ t.payer.length = 88 ∧
      (c.sha256 t.payer).length = 32) ∧
    s'.blocks = s.blocks ∧ s'.transaction_in_block = s.transaction_in_block ∧
    s'.trustworthy_wallets = s.trustworthy_wallets := by
  intro txs
  induction txs with
  | nil =>
    intro s s' h
    simp only [insertAllTxns, Except.ok.injEq] at h
    subst h
    exact ⟨fun r hr => hr, by simp, rfl, rfl, rfl⟩
  | cons t rest ih =>
    intro s s' h
    simp only [insertAllTxns] at h
    cases he : insertTransactionRaw c s t with
    | error e => rw [he] at h; exact absurd h (by simp)
    | ok s1 =>
      rw [he] at h
      simp only [] at h
      obtain ⟨hsub, hex, hl1, hl2, hl3, hb, htib, htr⟩ := insertTransactionRaw_ok he
      obtain ⟨ihsub, ihall, ihb, ihtib, ihtr⟩ := ih s1 s' h
      refine ⟨fun r hr => ihsub r (hsub r hr), ?_, ihb.trans hb, ihtib.trans htib,
        ihtr.trans htr⟩
      intro t' ht'
      rcases List.mem_cons.mp ht' with rfl | ht'
      · obtain ⟨r, hr, hrh⟩ := hex
        exact ⟨⟨r, ihsub r hr, hrh⟩, hl1, hl2, hl3⟩
      · exact ihall t' ht'

theorem insertTIBLoop_ok {bh : Hash} :
    ∀ (ths : List Hash) (s : Store) (idx : Nat) (s' : Store),
    insertTIBLoop bh s idx ths = .ok s' →
    s'.transaction_in_block = s.transaction_in_block ++ tibRows bh idx ths ∧
    s'.blocks = s.blocks ∧ s'.transactions = s.transactions ∧
    s'.trustworthy_wallets = s.trustworthy_wallets := by
  intro ths
  induction ths with
  | nil =>
    intro s idx s' h
    simp only [insertTIBLoop, Except.ok.injEq] at h
    subst h
    exact ⟨by simp [tibRows], rfl, rfl, rfl⟩
  | cons th rest ih =>
    intro s idx s' h
    simp only [insertTIBLoop] at h
    cases he : execInsertTIB s th bh idx with
    | error e => rw [he] at h; exact absurd h (by simp)
    | ok pr =>
      obtain ⟨s1, k⟩ := pr
      rw [he] at h
      simp only [] at h
      obtain ⟨htib, hb, ht, -, -, htr⟩ := execInsertTIB_ok he
      obtain ⟨ihtib, ihb, iht, ihtr⟩ := ih s1 (idx + 1) s' h
      refine ⟨?_, ihb.trans hb, iht.trans ht, ihtr.trans htr⟩
      rw [ihtib, htib, tibRows]
      simp

/-- Claim C3: `receive_block` is atomic.  Whenever it reports any error —
from a pre-check, a constraint violation during insertion, or a
post-insertion validation — the store it returns is exactly the store it
was given; when it succeeds, the block row, every transaction row, and
every `transaction_in_block` row of the received block are all present in
the committed store. -/
theorem C3_receive_block_atomic (c : Crypto) (s : Store) (b : Block) :
    match receiveBlock c s b with
    | (some _, s2) => s2 = s
    | (none, s2) => blockCommitted s2 b := by
  unfold receiveBlock
  cases hp : preChecks c b with
  | some msg => exact rfl
  | none =>
    cases hb : receiveBlockBody c s b with
    | error e => exact rfl
    | ok s3 =>
      show blockCommitted s3 b
      unfold receiveBlockBody at hb
      cases h1 : execInsertBlock s b.block_hash b.parent_hash b.nonce with
      | error e => rw [h1] at hb; exact absurd hb (by simp)
      | ok pr =>
        obtain ⟨s1, k1⟩ := pr
        rw [h1] at hb
        simp only [] at hb
        cases h2 : insertAllTxns c s1 b.transactions with
        | error e => rw [h2] at hb; exact absurd hb (by simp)
        | ok s2 =>
          rw [h2] at hb
          simp only [] at hb
          cases h3 : insertTIBLoop b.block_hash s2 0 (b.transactions.map (·.transaction_hash)) with
          | error e => rw [h3] at hb; exact absurd hb (by simp)
          | ok s3' =>
            rw [h3] at hb
            simp only [] at hb
            have hs3 : s3' = s3 := by
              by_cases hu : unauthorizedInBlock s3' b.block_hash
              · rw [if_pos hu] at hb; exact absurd hb (by simp)
              · rw [if_neg hu] at hb
                by_cases hcd : creditDebitViolationInBlock s3' b.block_hash
                · rw [if_pos hcd] at hb; exact absurd hb (by simp)
                · rw [if_neg hcd] at hb
                  cases hq : queryBlockConsistency s3' b.block_hash with
                  | error e => rw [hq] at hb; exact absurd hb (by simp)
                  | ok n =>
                    rw [hq] at hb
                    simp only [] at hb
                    by_cases hn : 0 < n
                    · rw [if_pos hn] at hb; exact absurd hb (by simp)
                    · rw [if_neg hn] at hb
                      simp only [Except.ok.injEq] at hb
                      exact hb
            subst hs3
            obtain ⟨-, hbex, -, -, hbt, hbtib, -, -, -⟩ := execInsertBlock_ok h1
            obtain ⟨-, hall, htb, httib, -⟩ := insertAllTxns_ok b.transactions s1 s2 h2
            obtain ⟨htibeq, htibb, htibt, -⟩ :=
              insertTIBLoop_ok (b.transactions.map (·.transaction_hash)) s2 0 s3' h3
            refine ⟨?_, ?_, ?_⟩
            · obtain ⟨r, hr, hrh⟩ := hbex
              refine ⟨r, ?_, hrh⟩
              rw [htibb, htb]
              exact hr
            · intro t ht
              obtain ⟨⟨r, hr, hrh⟩, -, -, -⟩ := hall t ht
              refine ⟨r, ?_, hrh⟩
              rw [htibt]
              exact hr
            · intro row hrow
              rw [htibeq]
              exact List.mem_append_right _ hrow

/-! ### Claim C1: receiving the same block twice -/

theorem preChecks_none_nonempty {c : Crypto} {b : Block} (hp : preChecks c b = none) :
    b.transactions ≠ [] := by
  intro hnil
  unfold preChecks at hp
  rw [hnil] at hp
  split_ifs at hp ; simp_all

theorem insertAllTxns_noop {c : Crypto} {s' : Store} :
    ∀ (txs : List Transaction),
    (∀ t ∈ txs, t.transaction_hash.length = 32 ∧ t.payer.length = 88 ∧
      (c.sha256 t.payer).length = 32 ∧
      (∃ r ∈ s'.transactions, r.transaction_hash = t.transaction_hash)) →
    insertAllTxns c s' txs = .ok s' := by
  intro txs
  induction txs with
  | nil => intro _; rfl
  | cons t rest ih =>
    intro hall
    obtain ⟨hl1, hl2, hl3, r, hr, hrh⟩ := hall t (by simp)
    have hdup : (s'.transactions.any
        fun rr => decide (rr.transaction_hash = t.transaction_hash)) = true := by
      simp only [List.any_eq_true, decide_eq_true_eq]
      exact ⟨r, hr, hrh⟩
    have hexec : execInsertTransaction s' t.transaction_hash t.payer (c.sha256 t.payer)
        t.signature = .ok (s', 0) := by
      unfold execInsertTransaction
      rw [if_neg (by simp [hl1]), if_neg (by simp [hl2]), if_neg (by simp [hl3]),
        if_pos hdup]
    have hraw : insertTransactionRaw c s' t = .ok s' := by
      unfold insertTransactionRaw
      rw [hexec]
      simp
    show insertAllTxns c s' (t :: rest) = .ok s'
    unfold insertAllTxns
    rw [hraw]
    exact ih fun t' ht' => hall t' (by simp [ht'])

/-- Amended claim C1 (the original is refuted by
`C1_counterexample_duplicate_block`): receiving the same block a second
time leaves the store unchanged, but it is *not* error-free — the second
call fails with the raw SQLite uniqueness violation on
`transaction_in_block` (whose UNIQUE constraints, unlike the primary keys
of `blocks` and `transactions`, carry no `ON CONFLICT IGNORE`), because the
rolled-back transaction leaves the duplicate store untouched. -/
theorem C1_receive_block_duplicate_rejected (c : Crypto) (s : Store) (b : Block)
    (s' : Store) (h : receiveBlock c s b = (none, s')) :
    receiveBlock c s' b = (some .sqlError, s') := by
  unfold receiveBlock at h
  cases hp : preChecks c b with
  | some msg => rw [hp] at h; exact absurd h (by simp)
  | none =>
    rw [hp] at h
    cases hb : receiveBlockBody c s b with
    | error e => rw [hb] at h; exact absurd h (by simp)
    | ok s3 =>
      rw [hb] at h
      simp only [Prod.mk.injEq] at h
      obtain ⟨-, rfl⟩ := h
      -- decompose the successful body
      unfold receiveBlockBody at hb
      cases h1 : execInsertBlock s b.block_hash b.parent_hash b.nonce with
      | error e => rw [h1] at hb; exact absurd hb (by simp)
      | ok pr =>
        obtain ⟨s1, k1⟩ := pr
        rw [h1] at hb
        simp only [] at hb
        cases h2 : insertAllTxns c s1 b.transactions with
        | error e => rw [h2] at hb; exact absurd hb (by simp)
        | ok s2 =>
          rw [h2] at hb
          simp only [] at hb
          cases h3 : insertTIBLoop b.block_hash s2 0
              (b.transactions.map (·.transaction_hash)) with
          | error e => rw [h3] at hb; exact absurd hb (by simp)
          | ok s3' =>
            rw [h3] at hb
            simp only [] at hb
            have hs3 : s3' = s3 := by
              by_cases hu : unauthorizedInBlock s3' b.block_hash
              · rw [if_pos hu] at hb; exact absurd hb (by simp)
              · rw [if_neg hu] at hb
                by_cases hcd : creditDebitViolationInBlock s3' b.block_hash
                · rw [if_pos hcd] at hb; exact absurd hb (by simp)
                · rw [if_neg hcd] at hb
                  cases hq : queryBlockConsistency s3' b.block_hash with
                  | error e => rw [hq] at hb; exact absurd hb (by simp)
                  | ok n =>
                    rw [hq] at hb
                    simp only [] at hb
                    by_cases hn : 0 < n
                    · rw [if_pos hn] at hb; exact absurd hb (by simp)
                    · rw [if_neg hn] at hb
                      simp only [Except.ok.injEq] at hb
                      exact hb
            subst hs3
            -- first-run facts
            obtain ⟨-, hbex, hblen, hnonce, hbt, hbtib, -, -, -⟩ := execInsertBlock_ok h1
            obtain ⟨-, hall, htb, httib, -⟩ := insertAllTxns_ok b.transactions s1 s2 h2
            obtain ⟨htibeq, htibb, htibt, -⟩ :=
              insertTIBLoop_ok (b.transactions.map (·.transaction_hash)) s2 0 s3' h3
            obtain ⟨t0, rest, hbtx⟩ : ∃ t0 rest, b.transactions = t0 :: rest := by
              cases hx : b.transactions with
              | nil => exact absurd hx (preChecks_none_nonempty hp)
              | cons a l => exact ⟨a, l, rfl⟩
            have hblock3 : ∃ r ∈ s3'.blocks, r.block_hash = b.block_hash := by
              obtain ⟨r, hr, hrh⟩ := hbex
              refine ⟨r, ?_, hrh⟩
              rw [htibb, htb]; exact hr
            have htx3 : ∀ t ∈ b.transactions,
                t.transaction_hash.length = 32 ∧ t.payer.length = 88 ∧
                (c.sha256 t.payer).length = 32 ∧
                ∃ r ∈ s3'.transactions, r.transaction_hash = t.transaction_hash := by
              intro t ht
              obtain ⟨⟨r, hr, hrh⟩, hl1, hl2, hl3⟩ := hall t ht
              exact ⟨hl1, hl2, hl3, r, by rw [htibt]; exact hr, hrh⟩
            have htibrow : TIBRow.mk t0.transaction_hash b.block_hash 0 ∈
                s3'.transaction_in_block := by
              rw [htibeq, hbtx]
              simp [tibRows]
            -- second run
            unfold receiveBlock
            rw [hp]
            have hexecb2 : execInsertBlock s3' b.block_hash b.parent_hash b.nonce =
                .ok (s3', 0) := by
              unfold execInsertBlock
              rw [if_neg (not_not_intro hblen), if_neg (by omega), if_pos ?_]
              simp only [List.any_eq_true, decide_eq_true_eq]
              exact hblock3
            have hall2 : insertAllTxns c s3' b.transactions = .ok s3' :=
              insertAllTxns_noop b.transactions htx3
            have htib2 : insertTIBLoop b.block_hash s3' 0
                (b.transactions.map (·.transaction_hash)) = .error .sqlError := by
              rw [hbtx]
              simp only [List.map_cons]
              have hexectib : execInsertTIB s3' t0.transaction_hash b.block_hash 0 =
                  .error "tib transaction block unique" := by
                unfold execInsertTIB
                rw [if_neg (by simp), if_neg ?_, if_neg ?_, if_pos ?_]
                · simp only [List.any_eq_true, decide_eq_true_eq]
                  refine ⟨⟨t0.transaction_hash, b.block_hash, 0⟩, htibrow, rfl, rfl⟩
                · simp only [List.any_eq_true, decide_eq_true_eq, not_not]
                  exact hblock3
                · simp only [List.any_eq_true, decide_eq_true_eq, not_not]
                  obtain ⟨-, -, -, r, hr, hrh⟩ := htx3 t0 (by simp [hbtx])
                  exact ⟨r, hr, hrh⟩
              unfold insertTIBLoop
              rw [hexectib]
            have hbody2 : receiveBlockBody c s3' b = .error .sqlError := by
              unfold receiveBlockBody
              rw [hexecb2]
              simp only []
              rw [hall2]
              simp only []
              rw [htib2]
            rw [hbody2]

/-- Counterexample to claim C1 as stated: a concrete valid block is
accepted by `receive_block` on the empty store, but feeding the identical
block to the resulting store again does *not* return success — the second
call fails (with the `transaction_in_block` uniqueness violation). -/
theorem C1_counterexample_duplicate_block :
    (receiveBlock trivCrypto emptyStore blockW).1 = none ∧
    (receiveBlock trivCrypto (receiveBlock trivCrypto emptyStore blockW).2 blockW).1 =
      some BErr.sqlError := by
  decide

/-- Witness for the amended claim C1 at the same concrete block. -/
theorem C1_receive_block_duplicate_rejected_witness :
    receiveBlock trivCrypto (receiveBlock trivCrypto emptyStore blockW).2 blockW =
      (some BErr.sqlError, (receiveBlock trivCrypto emptyStore blockW).2) :=
  C1_receive_block_duplicate_rejected trivCrypto emptyStore blockW
    (receiveBlock trivCrypto emptyStore blockW).2 (by decide)

/-! ### Claim C2: the `receive_block` pre-checks -/

theorem distinctRecipients_iff (t : Transaction) :
    distinctRecipients t = true ↔ (t.outputs.map (·.recipient_hash)).Nodup := by
  unfold distinctRecipients
  rw [decide_eq_true_eq]
  constructor
  · intro h
    have hsub := List.dedup_sublist (t.outputs.map (·.recipient_hash))
    have hlen : (t.outputs.map (·.recipient_hash)).dedup.length =
        (t.outputs.map (·.recipient_hash)).length := by
      rw [← h]
      simp
    rw [← List.dedup_eq_self]
    exact hsub.eq_of_length hlen
  · intro h
    rw [List.dedup_eq_self.mpr h]
    simp

theorem rewardBool_iff (b : Block) :
    ((match b.transactions with
      | [] => false
      | t0 :: _ => t0.inputs.isEmpty &&
          match t0.outputs with
          | [o] => decide (o.amount = BLOCK_REWARD)
          | _ => false) = true) ↔
    (b.transactions ≠ [] ∧ ∀ t0, b.transactions.head? = some t0 →
      t0.inputs.length = 0 ∧ t0.outputs.length = 1 ∧
      ∀ o ∈ t0.outputs, o.amount = BLOCK_REWARD) := by
  cases b.transactions with
  | nil => simp
  | cons t0 rest =>
    simp only [List.head?_cons, Option.some.injEq, forall_eq', ne_eq,
      reduceCtorEq, not_false_iff, true_and, Bool.and_eq_true,
      List.isEmpty_iff, List.length_eq_zero]
    constructor
    · rintro ⟨hin, hout⟩
      refine ⟨hin, ?_⟩
      cases houts : t0.outputs with
      | nil => rw [houts] at hout; exact absurd hout (by simp)
      | cons o os =>
        cases os with
        | nil =>
          rw [houts] at hout
          simp only [decide_eq_true_eq] at hout
          simp [hout]
        | cons o2 os2 => rw [houts] at hout; exact absurd hout (by simp)
    · rintro ⟨hin, hlen, hamount⟩
      refine ⟨hin, ?_⟩
      cases houts : t0.outputs with
      | nil => rw [houts] at hlen; exact absurd hlen (by simp)
      | cons o os =>
        cases os with
        | nil =>
          simp only [decide_eq_true_eq]
          exact hamount o (by rw [houts]; simp)
        | cons o2 os2 => rw [houts] at hlen; exact absurd hlen (by simp)

/-- Claim C2: a block is rejected at the pre-check stage of `receive_block`
— with an `InvalidReceivedBlock` error, before the store is touched —
exactly when one of the nine pre-schema conditions fails: transaction count
outside `[1,2000]`, nonce `≥ 2^63`, a malformed reward transaction at index
0, an output count outside `[1,256]`, a non-first transaction with input
count outside `[1,256]`, an output amount above `MAX_MONEY`, duplicate
recipient hashes inside one transaction, a failing
`verify_hash_challenge(12)`, or a failing ECDSA signature. -/
theorem C2_receive_block_prechecks (c : Crypto) (b : Block) :
    (preChecks c b = none ↔ preChecksSpec c b) ∧
    (match preChecks c b with
     | some msg => ∀ s, receiveBlock c s b = (some (BErr.invalidReceivedBlock msg), s)
     | none => True) := by
  constructor
  · constructor
    · intro h
      unfold preChecks at h
      split_ifs at h with h1 h2 h3 h4 h5 h6 h7 h8 h9
      obtain ⟨hne, hreward⟩ := (rewardBool_iff b).mp h3
      refine ⟨⟨?_, by omega⟩, by omega, hreward, ?_, ?_, ?_, ?_, h8, ?_⟩
      · cases hx : b.transactions with
        | nil => exact absurd hx hne
        | cons a l => simp [hx]
      · simpa only [List.all_eq_true, decide_eq_true_eq] using h4
      · simpa only [List.all_eq_true, decide_eq_true_eq] using h5
      · simpa only [List.all_eq_true, decide_eq_true_eq] using h6
      · intro t ht
        exact (distinctRecipients_iff t).mp ((List.all_eq_true.mp h7) t ht)
      · simpa only [List.all_eq_true] using h9
    · intro hspec
      obtain ⟨⟨hlen1, hlen2⟩, hnonce, hreward, houts, hins, hamt, hnodup, hver, hsig⟩ :=
        hspec
      have hne : b.transactions ≠ [] := by
        cases hx : b.transactions with
        | nil => rw [hx] at hlen1; exact absurd hlen1 (by simp)
        | cons a l => simp
      unfold preChecks
      rw [if_neg (by omega), if_neg (by omega),
        if_neg (not_not_intro ((rewardBool_iff b).mpr ⟨hne, hreward⟩)),
        if_neg (not_not_intro ?_), if_neg (not_not_intro ?_),
        if_neg (not_not_intro ?_), if_neg (not_not_intro ?_),
        if_neg (not_not_intro hver), if_neg (not_not_intro ?_)]
      · simp only [List.all_eq_true]
        exact hsig
      · simp only [List.all_eq_true]
        intro t ht
        exact (distinctRecipients_iff t).mpr (hnodup t ht)
      · simp only [List.all_eq_true, decide_eq_true_eq]
        exact hamt
      · simp only [List.all_eq_true, decide_eq_true_eq]
        exact hins
      · simp only [List.all_eq_true, decide_eq_true_eq]
        exact houts
  · cases hp : preChecks c b with
    | some msg =>
      intro s
      unfold receiveBlock
      rw [hp]
    | none => trivial

/-! ### Claims C9 and C10: what the `utxo` view can contain -/

theorem utxoView_mem {s : Store} {row : OutRow × Nat} (h : row ∈ utxoView s) :
    isUnspent s row.1 ∧
    (0 < row.2 → inLongestChainBlock s row.1.out_transaction_hash) ∧
    (0 < row.2 ∨ trustedUnconfirmed s row.1.out_transaction_hash = true) := by
  unfold utxoView at h
  rw [List.mem_filter] at h
  obtain ⟨hmem, hpred⟩ := h
  have hdisj : 0 < row.2 ∨ trustedUnconfirmed s row.1.out_transaction_hash = true := by
    rcases Bool.or_eq_true _ _ |>.mp hpred with hl | hr
    · exact Or.inl (decide_eq_true_eq.mp hl)
    · exact Or.inr hr
  unfold allUtxoConfirmations at hmem
  rw [List.mem_flatMap] at hmem
  obtain ⟨o, ho, hrow⟩ := hmem
  have hsplit : row.1 = o ∧
      (0 < row.2 → (o.out_transaction_hash, row.2) ∈ txConfirmations s) := by
    cases hm : (txConfirmations s).filter
        (fun tc => decide (tc.1 = o.out_transaction_hash)) with
    | nil =>
      rw [hm] at hrow
      simp only [List.mem_singleton] at hrow
      subst hrow
      exact ⟨rfl, fun h0 => absurd h0 (by simp)⟩
    | cons tc ms =>
      rw [hm] at hrow
      simp only [List.mem_map] at hrow
      obtain ⟨tc', htc', hrw⟩ := hrow
      have htcf : tc' ∈ (txConfirmations s).filter
          (fun tc => decide (tc.1 = o.out_transaction_hash)) := by
        rw [hm]; exact htc'
      rw [List.mem_filter] at htcf
      obtain ⟨hmem', heq⟩ := htcf
      have heq' : tc'.1 = o.out_transaction_hash := decide_eq_true_eq.mp heq
      subst hrw
      refine ⟨rfl, fun _ => ?_⟩
      show (o.out_transaction_hash, tc'.2) ∈ txConfirmations s
      rw [← heq']
      exact hmem'
  obtain ⟨hro, hconfmem⟩ := hsplit
  subst hro
  refine ⟨?_, ?_, hdisj⟩
  · unfold allUtxo at ho
    rw [List.mem_filter] at ho
    obtain ⟨-, hno⟩ := ho
    simp only [Bool.not_eq_true', List.any_eq_false, decide_eq_true_eq] at hno
    rintro ⟨i, hi, hc1, hc2⟩
    exact hno i hi ⟨hc1, hc2⟩
  · intro h0
    have := hconfmem h0
    unfold txConfirmations at this
    rw [List.mem_flatMap] at this
    obtain ⟨r, hr, hfm⟩ := this
    rw [List.mem_filterMap] at hfm
    obtain ⟨bc, hbc, hif⟩ := hfm
    by_cases hbh : bc.1.block_hash = r.block_hash
    · rw [if_pos hbh] at hif
      simp only [Option.some.injEq, Prod.mk.injEq] at hif
      exact ⟨r, hr, hif.1, bc, hbc, hbh⟩
    · rw [if_neg hbh] at hif
      exact absurd hif (by simp)

/-- Claim C9: every output contributing to `find_wallet_balance` — at any
`required_confirmations`, including 0 — is an unspent output whose
producing transaction either sits in a block on the longest chain or whose
payer is in the trust set.  Unconfirmed outputs of untrusted payers are
never counted. -/
theorem C9_balance_sources (s : Store) (h : Hash) (rc : Nat) :
    ∀ row ∈ contributingRows s h rc,
      isUnspent s row.1 ∧
      (inLongestChainBlock s row.1.out_transaction_hash ∨
        payerTrusted s row.1.out_transaction_hash) := by
  intro row hrow
  unfold contributingRows at hrow
  rw [List.mem_filter] at hrow
  obtain ⟨hv, -⟩ := hrow
  obtain ⟨hun, hconf, hdisj⟩ := utxoView_mem hv
  refine ⟨hun, ?_⟩
  rcases hdisj with h0 | htr
  · exact Or.inl (hconf h0)
  · right
    unfold trustedUnconfirmed at htr
    simp only [List.any_eq_true, Bool.and_eq_true, decide_eq_true_eq] at htr
    obtain ⟨t, ht, ⟨hth, w, hw, hwh⟩, -⟩ := htr
    exact ⟨t, ht, hth, by rw [← hwh]; exact hw⟩

/-- Witness for C9: in the concrete store, the reward output contributes to
the wallet's balance at zero required confirmations, is unspent, and its
transaction is on the longest chain. -/
theorem C9_balance_sources_witness :
    (⟨⟨List.replicate 32 6, 0, 1000, List.replicate 32 8⟩, 1⟩ : OutRow × Nat) ∈
      contributingRows storeW (List.replicate 32 8) 0 ∧
    (isUnspent storeW ⟨List.replicate 32 6, 0, 1000, List.replicate 32 8⟩ ∧
      (inLongestChainBlock storeW (List.replicate 32 6) ∨
        payerTrusted storeW (List.replicate 32 6))) :=
  ⟨by decide, C9_balance_sources storeW (List.replicate 32 8) 0
    ⟨⟨List.replicate 32 6, 0, 1000, List.replicate 32 8⟩, 1⟩ (by decide)⟩

/-- Claim C10 (implicit): the trust set only makes an output spendable when
its producing transaction has at least one stored input.  An unspent output
whose transaction has no inputs (a reward transaction) is visible in the
`utxo` view only with a strictly positive confirmation count, i.e. only
once its block is on the longest chain — regardless of the trust set.
`find_wallet_balance` and `create_simple_transaction` read only this view,
so neither can use such an output before then. -/
theorem C10_unconfirmed_reward_invisible (s : Store) :
    ∀ row ∈ utxoView s,
      (∀ i ∈ s.transaction_inputs,
        i.in_transaction_hash ≠ row.1.out_transaction_hash) →
      0 < row.2 ∧ inLongestChainBlock s row.1.out_transaction_hash := by
  intro row hrow hnoin
  obtain ⟨-, hconf, hdisj⟩ := utxoView_mem hrow
  rcases hdisj with h0 | htr
  · exact ⟨h0, hconf h0⟩
  · exfalso
    unfold trustedUnconfirmed at htr
    simp only [List.any_eq_true, Bool.and_eq_true, decide_eq_true_eq] at htr
    obtain ⟨t, ht, ⟨hth, -⟩, i, hi, hih⟩ := htr
    exact hnoin i hi (by rw [hih, hth])

/-- Witness for C10: the reward output of the concrete store is in the
`utxo` view, its transaction has no inputs, and indeed its confirmation
count is positive and its block is on the longest chain. -/
theorem C10_unconfirmed_reward_invisible_witness :
    (⟨⟨List.replicate 32 6, 0, 1000, List.replicate 32 8⟩, 1⟩ : OutRow × Nat) ∈
      utxoView storeW ∧
    (∀ i ∈ storeW.transaction_inputs, i.in_transaction_hash ≠ List.replicate 32 6) ∧
    (0 < 1 ∧ inLongestChainBlock storeW (List.replicate 32 6)) :=
  ⟨by decide, by decide,
    C10_unconfirmed_reward_invisible storeW
      ⟨⟨List.replicate 32 6, 0, 1000, List.replicate 32 8⟩, 1⟩ (by decide) (by decide)⟩

/-! ### Claim C7: `InsufficientBalance` -/

theorem tryGather_ok_eq (requested : Nat) :
    ∀ (L : List (TransactionInput × Nat)) (acc : List TransactionInput) (sum : Nat)
      (pr : List TransactionInput × Nat),
    sum + (L.map (·.2)).sum < 2 ^ 64 →
    tryGather requested L acc sum = .ok pr →
    pr = (acc ++ L.map (·.1), sum + (L.map (·.2)).sum) := by
  intro L
  induction L with
  | nil =>
    intro acc sum pr _ h
    simp only [tryGather, Except.ok.injEq] at h
    subst h
    simp
  | cons p rest ih =>
    obtain ⟨ti, amt⟩ := p
    intro acc sum pr hov h
    simp only [tryGather] at h
    have hwrap : (sum + amt) % 2 ^ 64 = sum + amt := Nat.mod_eq_of_lt (by
      simp only [List.map_cons, List.sum_cons] at hov
      omega)
    rw [hwrap] at h
    by_cases hge : requested ≤ sum + amt
    · rw [if_pos hge] at h
      exact absurd h (by simp)
    · rw [if_neg hge] at h
      have := ih (acc ++ [ti]) (sum + amt) pr (by
        simp only [List.map_cons, List.sum_cons] at hov ⊢
        omega) h
      rw [this]
      simp [Nat.add_assoc]

theorem tryGather_isOk_iff (requested : Nat) :
    ∀ (L : List (TransactionInput × Nat)) (acc : List TransactionInput) (sum : Nat),
    sum + (L.map (·.2)).sum < 2 ^ 64 →
    ((∃ pr, tryGather requested L acc sum = .ok pr) ↔
      ∀ n, n + 1 ≤ L.length → sum + ((L.map (·.2)).take (n + 1)).sum < requested) := by
  intro L
  induction L with
  | nil =>
    intro acc sum _
    simp [tryGather]
  | cons p rest ih =>
    obtain ⟨ti, amt⟩ := p
    intro acc sum hov
    simp only [tryGather]
    have hwrap : (sum + amt) % 2 ^ 64 = sum + amt := Nat.mod_eq_of_lt (by
      simp only [List.map_cons, List.sum_cons] at hov
      omega)
    rw [hwrap]
    by_cases hge : requested ≤ sum + amt
    · rw [if_pos hge]
      constructor
      · rintro ⟨pr, hpr⟩
        exact absurd hpr (by simp)
      · intro hall
        have := hall 0 (by simp)
        simp only [List.map_cons, List.take_succ_cons, List.take_zero, List.sum_cons,
          List.sum_nil] at this
        omega
    · rw [if_neg hge]
      rw [ih (acc ++ [ti]) (sum + amt) (by
        simp only [List.map_cons, List.sum_cons] at hov ⊢
        omega)]
      constructor
      · intro hall n hn
        cases n with
        | zero =>
          simp only [List.map_cons, List.take_succ_cons, List.take_zero, List.sum_cons,
            List.sum_nil]
          omega
        | succ m =>
          have := hall m (by simpa using hn)
          simp only [List.map_cons, List.take_succ_cons, List.sum_cons] at this ⊢
          omega
      · intro hall m hm
        have := hall (m + 1) (by simp only [List.length_cons]; omega)
        simp only [List.map_cons, List.take_succ_cons, List.sum_cons] at this ⊢
        omega

theorem execInsertTrustworthy_ok {s : Store} {h : Hash} {s' : Store} {k : Nat}
    (hx : execInsertTrustworthy s h = .ok (s', k)) :
    s'.transactions = s.transactions := by
  simp only [execInsertTrustworthy] at hx
  split_ifs at hx
  all_goals
    simp only [Except.ok.injEq, Prod.mk.injEq] at hx
    obtain ⟨hs, -⟩ := hx
    subst hs
    rfl

theorem createRawTransaction_error {c : Crypto} {w : Wallet}
    {ins : List TransactionInput} {outs : List TransactionOutput} {e : BErr}
    (h : createRawTransaction c w ins outs = .error e) : e = .panicked := by
  simp only [createRawTransaction] at h
  split_ifs at h <;> simp_all

theorem insertTransactionRaw_error {c : Crypto} {s : Store} {txn : Transaction} {e : BErr}
    (h : insertTransactionRaw c s txn = .error e) : ∃ msg, e = .invalidTxn msg := by
  unfold insertTransactionRaw at h
  cases hx : execInsertTransaction s txn.transaction_hash txn.payer (c.sha256 txn.payer)
      txn.signature with
  | error e' =>
    rw [hx] at h
    simp only [Except.error.injEq] at h
    exact ⟨e', h.symm⟩
  | ok pr =>
    obtain ⟨s1, rc⟩ := pr
    rw [hx] at h
    simp only [] at h
    by_cases hrc : 0 < rc
    · rw [if_pos hrc] at h
      cases ho : insertOutputsLoop txn.transaction_hash s1 0 txn.outputs with
      | error e' =>
        rw [ho] at h
        simp only [Except.error.injEq] at h
        exact ⟨e', h.symm⟩
      | ok s2 =>
        rw [ho] at h
        simp only [] at h
        cases hi : insertInputsLoop txn.transaction_hash s2 0 txn.inputs with
        | error e' =>
          rw [hi] at h
          simp only [Except.error.injEq] at h
          exact ⟨e', h.symm⟩
        | ok s3 =>
          rw [hi] at h
          exact absurd h (by simp)
    · rw [if_neg hrc] at h
      exact absurd h (by simp)

theorem receiveTentativeInternal_error {c : Crypto} {s : Store} {tx : Transaction}
    {e : BErr} (h : receiveTentativeTransactionInternal c s tx = .error e) :
    ∃ m, e = .invalidTentativeTxn m := by
  unfold receiveTentativeTransactionInternal at h
  cases hr : insertTransactionRaw c s tx with
  | error e' =>
    obtain ⟨msg, rfl⟩ := insertTransactionRaw_error hr
    rw [hr] at h
    simp only [Except.error.injEq] at h
    exact ⟨_, h.symm⟩
  | ok s1 =>
    rw [hr] at h
    simp only [] at h
    split_ifs at h <;>
      simp only [Except.error.injEq] at h <;>
      exact ⟨_, h.symm⟩

/-- Claim C7: `create_simple_transaction` fails with
`InsufficientBalance { requested, available }` exactly when accumulating
the sender's visible UTXO amounts never reaches the requested amount; in
that error `available` is the total of *all* the sender's visible UTXO
amounts, and no transaction is stored (the `transactions` table is
unchanged).  `s1` is the store after the autocommitted
`make_wallet_trustworthy`, and the total is assumed not to overflow a
`u64`. -/
theorem C7_insufficient_balance (c : Crypto) (s : Store) (w : Wallet)
    (requested : Nat) (recipient : Hash) (s1 : Store) (k : Nat)
    (h1 : execInsertTrustworthy s (c.sha256 w.public_serialized) = .ok (s1, k))
    (h2 : ((findAvailableSpend s1 (c.sha256 w.public_serialized)).map (·.2)).sum < 2 ^ 64) :
    (∀ rq av, (createSimpleTransaction c s w requested recipient).1 =
        .error (.insufficientBalance rq av) ↔
      (rq = requested ∧
        av = ((findAvailableSpend s1 (c.sha256 w.public_serialized)).map (·.2)).sum ∧
        neverReaches requested
          ((findAvailableSpend s1 (c.sha256 w.public_serialized)).map (·.2)))) ∧
    (neverReaches requested ((findAvailableSpend s1 (c.sha256 w.public_serialized)).map (·.2)) →
      (createSimpleTransaction c s w requested recipient).2.transactions = s.transactions) := by
  have htr := execInsertTrustworthy_ok h1
  cases hg : tryGather requested (findAvailableSpend s1 (c.sha256 w.public_serialized)) [] 0 with
  | ok pr =>
    obtain ⟨acc, avail⟩ := pr
    have heq := tryGather_ok_eq requested _ [] 0 (acc, avail) (by simpa using h2) hg
    simp only [Prod.mk.injEq, List.nil_append, Nat.zero_add] at heq
    obtain ⟨-, havail⟩ := heq
    have hnr : neverReaches requested
        ((findAvailableSpend s1 (c.sha256 w.public_serialized)).map (·.2)) := by
      intro n hn
      have hiff := tryGather_isOk_iff requested
        (findAvailableSpend s1 (c.sha256 w.public_serialized)) [] 0 (by simpa using h2)
      have := hiff.mp ⟨(acc, avail), hg⟩ n (by simpa using hn)
      simpa using this
    have hcs : createSimpleTransaction c s w requested recipient =
        (.error (.insufficientBalance requested avail), s1) := by
      simp only [createSimpleTransaction]
      rw [h1]
      simp only []
      rw [hg]
    rw [hcs]
    refine ⟨?_, fun _ => htr⟩
    intro rq av
    simp only [Except.error.injEq, BErr.insufficientBalance.injEq]
    constructor
    · rintro ⟨hrq, hav⟩
      exact ⟨hrq.symm, by rw [← hav, havail], hnr⟩
    · rintro ⟨hrq, hav, -⟩
      exact ⟨hrq.symm, by rw [hav, havail]⟩
  | error pr =>
    obtain ⟨inputs, total⟩ := pr
    have hnot : ¬ neverReaches requested
        ((findAvailableSpend s1 (c.sha256 w.public_serialized)).map (·.2)) := by
      intro hnr
      have hiff := tryGather_isOk_iff requested
        (findAvailableSpend s1 (c.sha256 w.public_serialized)) [] 0 (by simpa using h2)
      obtain ⟨pr', hpr'⟩ := hiff.mpr (by
        intro n hn
        simpa using hnr n (by simpa using hn))
      rw [hg] at hpr'
      exact absurd hpr' (by simp)
    have hfirst : ∀ rq av, ¬ ((createSimpleTransaction c s w requested recipient).1 =
        .error (.insufficientBalance rq av)) := by
      intro rq av hres
      have hbase : createSimpleTransaction c s w requested recipient =
          (match createRawTransaction c w inputs
              (if c.sha256 w.public_serialized ≠ recipient then
                TransactionOutput.mk requested recipient ::
                  (if requested < total then
                    [TransactionOutput.mk (total - requested) (c.sha256 w.public_serialized)]
                  else [])
              else [TransactionOutput.mk total recipient]) with
            | .error e => (.error e, s1)
            | .ok txn =>
              match receiveTentativeTransactionInternal c s1 txn with
              | .error e => (.error e, s1)
              | .ok s2 => (.ok txn, s2)) := by
        simp only [createSimpleTransaction]
        rw [h1]
        simp only []
        rw [hg]
      rw [hbase] at hres
      cases hcr : createRawTransaction c w inputs
          (if c.sha256 w.public_serialized ≠ recipient then
            TransactionOutput.mk requested recipient ::
              (if requested < total then
                [TransactionOutput.mk (total - requested) (c.sha256 w.public_serialized)]
              else [])
          else [TransactionOutput.mk total recipient]) with
      | error e =>
        rw [hcr] at hres
        have := createRawTransaction_error hcr
        subst this
        simp at hres
      | ok txn =>
        rw [hcr] at hres
        simp only [] at hres
        cases hri : receiveTentativeTransactionInternal c s1 txn with
        | error e =>
          rw [hri] at hres
          obtain ⟨m, rfl⟩ := receiveTentativeInternal_error hri
          simp at hres
        | ok s2 =>
          rw [hri] at hres
          simp at hres
    exact ⟨fun rq av => ⟨fun hres => absurd hres (hfirst rq av),
      fun hrhs => absurd hrhs.2.2 hnot⟩, fun hnr => absurd hnr hnot⟩

/-- Witness for C7 on the empty store: with no visible UTXOs, a request of
5 units fails with `InsufficientBalance { requested = 5, available = 0 }`,
and the `transactions` table stays empty. -/
theorem C7_insufficient_balance_witness :
    execInsertTrustworthy emptyStore (trivCrypto.sha256 walletW.public_serialized) =
      .ok (s1W, 1) ∧
    ((findAvailableSpend s1W (trivCrypto.sha256 walletW.public_serialized)).map (·.2)).sum <
      2 ^ 64 ∧
    ((∀ rq av, (createSimpleTransaction trivCrypto emptyStore walletW 5
        (List.replicate 32 1)).1 = .error (.insufficientBalance rq av) ↔
      (rq = 5 ∧
        av = ((findAvailableSpend s1W (trivCrypto.sha256 walletW.public_serialized)).map
          (·.2)).sum ∧
        neverReaches 5
          ((findAvailableSpend s1W (trivCrypto.sha256 walletW.public_serialized)).map (·.2)))) ∧
    (neverReaches 5
        ((findAvailableSpend s1W (trivCrypto.sha256 walletW.public_serialized)).map (·.2)) →
      (createSimpleTransaction trivCrypto emptyStore walletW 5
        (List.replicate 32 1)).2.transactions = emptyStore.transactions)) :=
  ⟨by rfl, by decide,
    C7_insufficient_balance trivCrypto emptyStore walletW 5 (List.replicate 32 1) s1W 1
      (by rfl) (by decide)⟩

/-! ### Claim C6: the outputs of `create_simple_transaction` -/

theorem createRawTransaction_ok {c : Crypto} {w : Wallet}
    {ins : List TransactionInput} {outs : List TransactionOutput} {txn : Transaction}
    (h : createRawTransaction c w ins outs = .ok txn) :
    txn.inputs = ins ∧ txn.outputs = outs := by
  simp only [createRawTransaction] at h
  split_ifs at h
  simp only [Except.ok.injEq] at h
  subst h
  exact ⟨rfl, rfl⟩

/-- Claim C6: when `create_simple_transaction` succeeds after gathering
inputs of total `total` for a request of `requested` units, the resulting
transaction's outputs are exactly: if recipient ≠ sender, one output of
`requested` to the recipient followed by one change output of
`total − requested` back to the sender iff `total > requested`; if
recipient = sender, a single consolidated output of `total`. -/
theorem C6_simple_transaction_outputs (c : Crypto) (s : Store) (w : Wallet)
    (requested : Nat) (recipient : Hash) (s1 : Store) (k : Nat)
    (inputs : List TransactionInput) (total : Nat) (txn : Transaction)
    (h1 : execInsertTrustworthy s (c.sha256 w.public_serialized) = .ok (s1, k))
    (h2 : tryGather requested (findAvailableSpend s1 (c.sha256 w.public_serialized)) [] 0 =
      .error (inputs, total))
    (h3 : (createSimpleTransaction c s w requested recipient).1 = .ok txn) :
    txn.outputs =
      if c.sha256 w.public_serialized ≠ recipient then
        TransactionOutput.mk requested recipient ::
          (if requested < total then
            [TransactionOutput.mk (total - requested) (c.sha256 w.public_serialized)]
          else [])
      else [TransactionOutput.mk total (c.sha256 w.public_serialized)] := by
  have hbase : createSimpleTransaction c s w requested recipient =
      (match createRawTransaction c w inputs
          (if c.sha256 w.public_serialized ≠ recipient then
            TransactionOutput.mk requested recipient ::
              (if requested < total then
                [TransactionOutput.mk (total - requested) (c.sha256 w.public_serialized)]
              else [])
          else [TransactionOutput.mk total recipient]) with
        | .error e => (.error e, s1)
        | .ok txn' =>
          match receiveTentativeTransactionInternal c s1 txn' with
          | .error e => (.error e, s1)
          | .ok s2 => (.ok txn', s2)) := by
    simp only [createSimpleTransaction]
    rw [h1]
    simp only []
    rw [h2]
  rw [hbase] at h3
  cases hcr : createRawTransaction c w inputs
      (if c.sha256 w.public_serialized ≠ recipient then
        TransactionOutput.mk requested recipient ::
          (if requested < total then
            [TransactionOutput.mk (total - requested) (c.sha256 w.public_serialized)]
          else [])
      else [TransactionOutput.mk total recipient]) with
  | error e => rw [hcr] at h3; exact absurd h3 (by simp)
  | ok txn' =>
    rw [hcr] at h3
    simp only [] at h3
    cases hri : receiveTentativeTransactionInternal c s1 txn' with
    | error e => rw [hri] at h3; exact absurd h3 (by simp)
    | ok s2 =>
      rw [hri] at h3
      simp only [Except.ok.injEq] at h3
      subst h3
      obtain ⟨-, houts⟩ := createRawTransaction_ok hcr
      rw [houts]
      by_cases hwr : c.sha256 w.public_serialized ≠ recipient
      · rw [if_pos hwr, if_pos hwr]
      · rw [if_neg hwr, if_neg hwr]
        rw [not_not.mp hwr]

/-- Witness for C6: in `storeC6`, requesting 300 of the 1000-unit reward
output yields a transaction paying 300 to the recipient and 700 change
back to the wallet. -/
theorem C6_simple_transaction_outputs_witness :
    execInsertTrustworthy storeC6 (trivCrypto.sha256 walletW.public_serialized) =
      .ok (s1C6, 1) ∧
    tryGather 300 (findAvailableSpend s1C6 (trivCrypto.sha256 walletW.public_serialized))
      [] 0 = .error ([⟨List.replicate 32 6, 0⟩], 1000) ∧
    (createSimpleTransaction trivCrypto storeC6 walletW 300 (List.replicate 32 1)).1 =
      .ok txnC6 ∧
    txnC6.outputs =
      (if trivCrypto.sha256 walletW.public_serialized ≠ List.replicate 32 1 then
        TransactionOutput.mk 300 (List.replicate 32 1) ::
          (if 300 < 1000 then
            [TransactionOutput.mk (1000 - 300) (trivCrypto.sha256 walletW.public_serialized)]
          else [])
      else [TransactionOutput.mk 1000 (trivCrypto.sha256 walletW.public_serialized)]) :=
  ⟨by rfl, by rfl, by rfl,
    C6_simple_transaction_outputs trivCrypto storeC6 walletW 300 (List.replicate 32 1)
      s1C6 1 [⟨List.replicate 32 6, 0⟩] 1000 txnC6 (by rfl) (by rfl) (by rfl)⟩

end SimpleBlockchain
